import Mathlib

/-!
# MyString: a verification development for `MyString.c`

A shallow embedding of the string library in `MyString.c`, followed by theorems
about it.

## Conventions of the embedding

* A pointer to a `MyString` is an `Option MyString`; `none` is `NULL`.
* The buffer `_string` is an `Option (List Int)`; `none` is `NULL`, and
  `some b` is an allocation of `b.length` chars. A char is represented by the
  integer value the C type `char` holds.
* `int` arithmetic is 32-bit two's complement: every `int` operation that can
  overflow is followed by `wrapInt`.
* A function whose C body can dereference `NULL`, index outside an allocation
  or loop for ever returns an `Option`; `none` is a call that does not return
  a value (undefined behaviour, or a loop that does not end), `some r` is a
  normal return of `r`.
* An `unsigned int` index wraps at `2 ^ 32`: every increment of one is taken
  modulo `4294967296`.
* Every call of `malloc` is given a Boolean that says whether it succeeds
  (returns a non-`NULL` allocation of the requested size).
* Next to the value it returns, a function that writes through a pointer
  returns the state after the call of the object it writes. An object passed
  through a pointer to const is only read, so it is the same before and after
  the call; the objects of one call are distinct and share no buffer. The call
  of `myStringSetFromMyString` on one and the same object is embedded apart, as
  `myStringSetFromMyStringSelf`.
* The library function `qsort` is a parameter of the sorting functions, and
  what the C standard says of it is the hypothesis `QsortContract`.
* `MYSTR_ERROR_CODE` and `MyStringRetVal` are declared in `MyString.h`, which
  is not among the sources: the sentinel is an explicit parameter of every
  function that mentions it, and `MyStringRetVal` is an enumeration of the two
  names the code uses.
-/

namespace MyStringC

/-! ## Constants and machine integers -/

/-- The macro `TO_INT_ASCII`. -/
def TO_INT_ASCII : Int := 48
/-- The macro `ZERO_ASCII`. -/
def ZERO_ASCII : Int := 48
/-- The macro `NINE_ASCII`. -/
def NINE_ASCII : Int := 57
/-- The macro `PLUS_ASCII`. -/
def PLUS_ASCII : Int := 43
/-- The macro `MINUS_ASCII`. -/
def MINUS_ASCII : Int := 45

/-- Smallest value of a 32-bit `int`. -/
def INT_MIN : Int := -2147483648
/-- Largest value of a 32-bit `int`. -/
def INT_MAX : Int := 2147483647

/-- Reduction of a mathematical integer to the 32-bit two's complement `int`
that holds it. -/
def wrapInt (x : Int) : Int := (x + 2147483648) % 4294967296 - 2147483648

/-- The result type `MyStringRetVal` (declared in `MyString.h`). -/
inductive MyStringRetVal where
  | MYSTRING_SUCCESS
  | MYSTRING_ERROR
  deriving DecidableEq, Repr

open MyStringRetVal

/-- The struct `_MyString`: the buffer pointer and the stored length. -/
structure MyString where
  _string : Option (List Int)
  _length : Nat
  deriving DecidableEq, Repr

/-- Result of `malloc(size)`: a block of `size` chars (their indeterminate
content is represented by zeros) when the call succeeds, `NULL` otherwise. -/
def malloc (ok : Bool) (size : Nat) : Option (List Int) :=
  if ok then some (List.replicate size 0) else none

/-- Read of `buf[i]`: undefined when `buf` is `NULL` or `i` is outside the
allocation. -/
def readAt (buf : Option (List Int)) (i : Nat) : Option Int :=
  match buf with
  | none => none
  | some b => b.get? i

/-- Call `memcpy(dst + off, src, n)`: copies the first `n` chars of `src` over
`dst` from offset `off`. A copy of zero chars changes nothing; otherwise the
call is undefined when `src` is `NULL` or shorter than `n`, or when the
destination range leaves the allocation. -/
def memcpy (dst : List Int) (off : Nat) (src : Option (List Int)) (n : Nat) :
    Option (List Int) :=
  if n = 0 then some dst
  else
    match src with
    | none => none
    | some s =>
      if n ≤ s.length ∧ off + n ≤ dst.length then
        some (dst.take off ++ s.take n ++ dst.drop (off + n))
      else none

/-! ## Helpers of `MyString.c` -/

/-- Loop of `getNumOfDigits`: `while (num != 0) { numOfDigits++; num /= 10; }`.
The first argument bounds the number of iterations; `getNumOfDigits` passes
`|num|`, which the loop never uses up because `|num / 10| < |num|`. -/
def getNumOfDigitsLoop : Nat → Int → Nat → Nat
  | 0, _, numOfDigits => numOfDigits
  | fuel + 1, num, numOfDigits =>
    if num ≠ 0 then getNumOfDigitsLoop fuel (Int.tdiv num 10) (numOfDigits + 1)
    else numOfDigits

/-- The function `getNumOfDigits`. -/
def getNumOfDigits (num : Int) : Nat :=
  getNumOfDigitsLoop num.natAbs num 0

/-- The function `defaultComparator`. -/
def defaultComparator (ch1 ch2 : Int) : Int :=
  if ch1 > ch2 then 1
  else if ch1 < ch2 then -1
  else 0

/-! ## Allocation, copy and clone -/

/-- The function `myStringAlloc`. -/
def myStringAlloc (mallocOk : Bool) : Option MyString :=
  if mallocOk then some { _string := none, _length := 0 } else none

/-- The function `myStringSetFromMyString`, for `str` and `other` that are not
the same object. Returns the value returned and the state of `*str` after the
call. -/
def myStringSetFromMyString (mallocOk : Bool) (str other : Option MyString) :
    Option (MyStringRetVal × Option MyString) :=
  match str, other with
  | none, _ => some (MYSTRING_ERROR, none)
  | some s, none => some (MYSTRING_ERROR, some s)
  | some s, some o =>
    match malloc mallocOk o._length with
    | none => some (MYSTRING_ERROR, some { _string := none, _length := s._length })
    | some buf =>
      match memcpy buf 0 o._string o._length with
      | none => none
      | some buf2 => some (MYSTRING_SUCCESS, some { _string := some buf2, _length := o._length })

/-- The function `myStringSetFromMyString` called with `other == str`, one and
the same object. `freeString` releases the buffer, which is also the buffer of
`other`; `newBlock` is what `malloc (other->_length)` then returns, `NULL` or a
block whose content is indeterminate and is whatever `newBlock` holds. The
length is assigned to itself, and `memcpy` copies from `other->_string`, which
by now is the new block. Returns the value returned and the state of the
object after the call. -/
def myStringSetFromMyStringSelf (newBlock : Option (List Int)) (str : Option MyString) :
    Option (MyStringRetVal × Option MyString) :=
  match str with
  | none => some (MYSTRING_ERROR, none)
  | some s =>
    match newBlock with
    | none => some (MYSTRING_ERROR, some { _string := none, _length := s._length })
    | some buf =>
      match memcpy buf 0 (some buf) s._length with
      | none => none
      | some buf2 => some (MYSTRING_SUCCESS, some { _string := some buf2, _length := s._length })

/-- The function `myStringClone`: `mallocOk1` is the allocation of the struct,
`mallocOk2` that of the buffer. -/
def myStringClone (mallocOk1 mallocOk2 : Bool) (str : Option MyString) :
    Option (Option MyString) :=
  match str with
  | none => some none
  | some s =>
    match myStringAlloc mallocOk1 with
    | none => some none
    | some clone =>
      match myStringSetFromMyString mallocOk2 (some clone) (some s) with
      | none => none
      | some (MYSTRING_ERROR, _) => some none
      | some (MYSTRING_SUCCESS, c) => some c

/-! ## Integer conversion -/

/-- Loop of `myStringSetFromInt`:
`for (i = 0; i < num; i++) { str->_string[str->_length - i - 1] = (char)(n % 10) + TO_INT_ASCII; n /= 10; }`.
The first argument is the number `num - i` of iterations left. The char
stored is `n % 10 + 48`, a value between 39 and 57, which every `char` type
holds unchanged. A write outside the allocation is undefined. -/
def setFromIntLoop (length : Nat) : Nat → Nat → Int → List Int → Option (List Int)
  | 0, _, _, buf => some buf
  | k + 1, i, n, buf =>
    if length - i - 1 < buf.length then
      setFromIntLoop length k (i + 1) (Int.tdiv n 10)
        (buf.set (length - i - 1) (Int.tmod n 10 + TO_INT_ASCII))
    else none

/-- The function `myStringSetFromInt`. Returns the value returned and the state
of `*str` after the call. In the branch `n < 0` the char `'-'` is written
before the result of `malloc` is tested, so a failed allocation is undefined
there. -/
def myStringSetFromInt (mallocOk : Bool) (str : Option MyString) (n : Int) :
    Option (MyStringRetVal × Option MyString) :=
  match str with
  | none => some (MYSTRING_ERROR, none)
  | some _ =>
    let num := getNumOfDigits n
    if n < 0 then
      match malloc mallocOk (num + 1) with
      | none => none
      | some buf =>
        match setFromIntLoop (num + 1) num 0 (wrapInt (n * -1)) (buf.set 0 45) with
        | none => none
        | some b => some (MYSTRING_SUCCESS, some { _string := some b, _length := num + 1 })
    else
      match malloc mallocOk num with
      | none => some (MYSTRING_ERROR, some { _string := none, _length := num })
      | some buf =>
        match setFromIntLoop num num 0 n buf with
        | none => none
        | some b => some (MYSTRING_SUCCESS, some { _string := some b, _length := num })

/-- Loop of `myStringToInt`, `for (i = str->_length - 1; i >= 0; i--)`: the
first argument is `i + 1`, so that the body runs at index `i` and the loop
ends when it reaches `0`. -/
def myStringToIntLoop (MYSTR_ERROR_CODE : Int) (buf : Option (List Int)) :
    Nat → Int → Int → Option Int
  | 0, _, num => some num
  | i + 1, power, num =>
    match readAt buf i with
    | none => none
    | some c =>
      if c ≥ ZERO_ASCII ∧ c ≤ NINE_ASCII then
        myStringToIntLoop MYSTR_ERROR_CODE buf i (wrapInt (power * 10))
          (wrapInt (num + wrapInt ((c - TO_INT_ASCII) * power)))
      else if i = 0 ∧ (c = PLUS_ASCII ∨ c = MINUS_ASCII) then
        if c = MINUS_ASCII then
          myStringToIntLoop MYSTR_ERROR_CODE buf i power (wrapInt (num * -1))
        else
          myStringToIntLoop MYSTR_ERROR_CODE buf i power num
      else some MYSTR_ERROR_CODE

/-- The function `myStringToInt`. The index `i` is an `int` initialised from
the `size_t` value `str->_length - 1`. -/
def myStringToInt (MYSTR_ERROR_CODE : Int) (str : Option MyString) : Option Int :=
  match str with
  | none => some MYSTR_ERROR_CODE
  | some s =>
    myStringToIntLoop MYSTR_ERROR_CODE s._string
      (wrapInt ((s._length : Int) - 1) + 1).toNat 1 0

/-! ## Filtering -/

/-- Loop of `myStringFilter`, `for (i = 0; i < str->_length; i++)`: `length` is
`str->_length` and `dst` is `filteredString`. The indices `i` and `j` are
`unsigned int` and wrap at `2 ^ 32`. The first numeric argument bounds the
number of iterations, and `myStringFilter` passes `2 ^ 32`: whether the loop
goes on depends on `i` alone, so a loop that has run `2 ^ 32` times has found
`i < length` at every value `i` can take and never ends. Returns the final `j`
and the content of `filteredString`. -/
def myStringFilterLoop (filt : Int → Bool) (src : Option (List Int)) (length : Nat) :
    Nat → Nat → Nat → Option (List Int) → Option (Nat × Option (List Int))
  | 0, i, j, dst => if i < length then none else some (j, dst)
  | k + 1, i, j, dst =>
    if i < length then
      match readAt src i with
      | none => none
      | some c =>
        if filt c = false then
          match dst with
          | none => none
          | some d =>
            if j < d.length then
              myStringFilterLoop filt src length k ((i + 1) % 4294967296)
                ((j + 1) % 4294967296) (some (d.set j c))
            else none
        else myStringFilterLoop filt src length k ((i + 1) % 4294967296) j dst
    else some (j, dst)

/-- The function `myStringFilter`: `mallocOk1` is the allocation of
`filteredString` (its result is not tested by the code), `mallocOk2` that of
the new buffer. Returns the value returned and the state of `*str` after the
call. -/
def myStringFilter (mallocOk1 mallocOk2 : Bool) (str : Option MyString)
    (filt : Option (Int → Bool)) : Option (MyStringRetVal × Option MyString) :=
  match str with
  | none => some (MYSTRING_ERROR, none)
  | some s =>
    match s._string, filt with
    | none, _ => some (MYSTRING_ERROR, some s)
    | some _, none => some (MYSTRING_ERROR, some s)
    | some _, some f =>
      match myStringFilterLoop f s._string s._length 4294967296 0 0
          (malloc mallocOk1 s._length) with
      | none => none
      | some (j, filteredString) =>
        match malloc mallocOk2 j with
        | none => some (MYSTRING_ERROR, some { _string := none, _length := j })
        | some buf =>
          match memcpy buf 0 filteredString j with
          | none => none
          | some buf2 => some (MYSTRING_SUCCESS, some { _string := some buf2, _length := j })

/-! ## Comparison and equality -/

/-- Loop `while (i < str1->_length && i < str2->_length)` and tail of
`myStringCustomCompare`, entered once both buffers are known to be present.
The index `i` is an `unsigned int` and wraps at `2 ^ 32`. The first numeric
argument bounds the number of iterations, and `myStringCustomCompare` passes
`2 ^ 32`: the index is all the state of the loop, so a loop that has run
`2 ^ 32` times without leaving is back at an index it has visited and never
ends. A call through a `NULL` comparator is undefined. -/
def myStringCustomCompareLoop (b1 b2 : List Int) (len1 len2 : Nat)
    (comparator : Option (Int → Int → Int)) : Nat → Nat → Option Int
  | 0, i =>
    if i < len1 ∧ i < len2 then none
    else if len1 = len2 then some 0
    else if len1 = i then some (-1)
    else some 1
  | k + 1, i =>
    if i < len1 ∧ i < len2 then
      match comparator, b1.get? i, b2.get? i with
      | some cmp, some c1, some c2 =>
        if cmp c1 c2 > 0 then some 1
        else if cmp c1 c2 < 0 then some (-1)
        else myStringCustomCompareLoop b1 b2 len1 len2 comparator k ((i + 1) % 4294967296)
      | _, _, _ => none
    else if len1 = len2 then some 0
    else if len1 = i then some (-1)
    else some 1

/-- The function `myStringCustomCompare`. Its test reads
`str1->_string == NULL || str2->_string == NULL || str1 == NULL || str2 == NULL`
from left to right, so each pointer is dereferenced before it is compared with
`NULL`. -/
def myStringCustomCompare (MYSTR_ERROR_CODE : Int) (str1 str2 : Option MyString)
    (comparator : Option (Int → Int → Int)) : Option Int :=
  match str1 with
  | none => none
  | some s1 =>
    match s1._string with
    | none => some MYSTR_ERROR_CODE
    | some b1 =>
      match str2 with
      | none => none
      | some s2 =>
        match s2._string with
        | none => some MYSTR_ERROR_CODE
        | some b2 =>
          myStringCustomCompareLoop b1 b2 s1._length s2._length comparator 4294967296 0

/-- The function `myStringCompare`. -/
def myStringCompare (MYSTR_ERROR_CODE : Int) (str1 str2 : Option MyString) : Option Int :=
  match str1, str2 with
  | some _, some _ =>
    myStringCustomCompare MYSTR_ERROR_CODE str1 str2 (some defaultComparator)
  | _, _ => some MYSTR_ERROR_CODE

/-- The function `myStringCustomEqual`. -/
def myStringCustomEqual (MYSTR_ERROR_CODE : Int) (str1 str2 : Option MyString)
    (comparator : Option (Int → Int → Int)) : Option Int :=
  match str1, str2, comparator with
  | some _, some _, some _ =>
    match myStringCustomCompare MYSTR_ERROR_CODE str1 str2 comparator with
    | none => none
    | some compare =>
      if compare = MYSTR_ERROR_CODE then some MYSTR_ERROR_CODE
      else if compare ≠ 0 then some 0
      else some 1
  | _, _, _ => some MYSTR_ERROR_CODE

/-- The function `myStringEqual`. -/
def myStringEqual (MYSTR_ERROR_CODE : Int) (str1 str2 : Option MyString) : Option Int :=
  match str1, str2 with
  | some _, some _ =>
    myStringCustomEqual MYSTR_ERROR_CODE str1 str2 (some defaultComparator)
  | _, _ => some MYSTR_ERROR_CODE

/-- String literal as a char buffer. -/
def ofStr (s : String) : List Int := s.toList.map (fun c => (c.toNat : Int))

/-- A string object holding exactly the chars of `b`. -/
def mk (b : List Int) : MyString := { _string := some b, _length := b.length }

/-- The predicate `filter` of the test code: true exactly on `'b'` and `'g'`. -/
def filter (letter : Int) : Bool :=
  if letter = 98 ∨ letter = 103 then true else false

/-! ## C strings, concatenation and length -/

/-- Loop of `getLength`: `while (cString[length] != '\0') { length++; }`.
`cString` is the block of chars that starts at the pointer; the first argument
is the number of chars of the block not read yet, and a read past the block is
undefined. -/
def getLengthLoop (cString : List Int) : Nat → Nat → Option Nat
  | 0, _ => none
  | k + 1, length =>
    match cString.get? length with
    | none => none
    | some c => if c ≠ 0 then getLengthLoop cString k (length + 1) else some length

/-- The function `getLength`. -/
def getLength (cString : List Int) : Option Nat :=
  getLengthLoop cString cString.length 0

/-- The function `myStringSetFromCString`; `cString` is `NULL` or the block of
chars it points to. Returns the value returned and the state of `*str` after
the call. -/
def myStringSetFromCString (mallocOk : Bool) (str : Option MyString)
    (cString : Option (List Int)) : Option (MyStringRetVal × Option MyString) :=
  match str, cString with
  | none, _ => some (MYSTRING_ERROR, none)
  | some s, none => some (MYSTRING_ERROR, some s)
  | some _, some cs =>
    match getLength cs with
    | none => none
    | some length =>
      match malloc mallocOk length with
      | none => some (MYSTRING_ERROR, some { _string := none, _length := length })
      | some buf =>
        match memcpy buf 0 (some cs) length with
        | none => none
        | some buf2 =>
          some (MYSTRING_SUCCESS, some { _string := some buf2, _length := length })

/-- The function `myStringToCString`: the result of `malloc` is not tested, and
the terminator is written through it, so a failed allocation is undefined. -/
def myStringToCString (mallocOk : Bool) (str : Option MyString) :
    Option (Option (List Int)) :=
  match str with
  | none => some none
  | some s =>
    match malloc mallocOk (s._length + 1) with
    | none => none
    | some cString =>
      match memcpy cString 0 s._string s._length with
      | none => none
      | some c2 =>
        if s._length < c2.length then some (some (c2.set s._length 0)) else none

/-- The function `myStringCat`, for `dest` and `src` that are not the same
object: `mallocOk1` is the allocation made by `myStringToCString`, `mallocOk2`
that of the new buffer. Returns the value returned and the state of `*dest`
after the call; `src` points to const and nothing is written through it. -/
def myStringCat (mallocOk1 mallocOk2 : Bool) (dest src : Option MyString) :
    Option (MyStringRetVal × Option MyString) :=
  match dest, src with
  | none, _ => some (MYSTRING_ERROR, none)
  | some d, none => some (MYSTRING_ERROR, some d)
  | some d, some s =>
    match myStringToCString mallocOk1 (some d) with
    | none => none
    | some temp =>
      match malloc mallocOk2 (d._length + s._length) with
      | none => some (MYSTRING_ERROR, some { _string := none, _length := d._length })
      | some buf =>
        match memcpy buf 0 temp d._length with
        | none => none
        | some buf2 =>
          match memcpy buf2 d._length s._string s._length with
          | none => none
          | some buf3 =>
            some (MYSTRING_SUCCESS,
              some { _string := some buf3, _length := d._length + s._length })

/-- The function `myStringCatTo`, for a `result` that is neither `str1` nor
`str2`. Returns the value returned and the state of `*result` after the call;
`str1` and `str2` point to const and nothing is written through them. -/
def myStringCatTo (mallocOk : Bool) (str1 str2 result : Option MyString) :
    Option (MyStringRetVal × Option MyString) :=
  match str1, str2, result with
  | some s1, some s2, some r =>
    match malloc mallocOk (s1._length + s2._length) with
    | none => some (MYSTRING_ERROR, some { _string := none, _length := r._length })
    | some buf =>
      match memcpy buf 0 s1._string s1._length with
      | none => none
      | some buf2 =>
        match memcpy buf2 s1._length s2._string s2._length with
        | none => none
        | some buf3 =>
          some (MYSTRING_SUCCESS,
            some { _string := some buf3, _length := s1._length + s2._length })
  | _, _, _ => some (MYSTRING_ERROR, result)

/-- The function `myStringLen`. -/
def myStringLen (str1 : Option MyString) : Nat :=
  match str1 with
  | none => 0
  | some s => s._length

/-! ## Sorting -/

/-- The function `myStringComparatorCasting`: `qsort` hands it pointers to two
elements of the array, it reads the two handles and calls `myStringCompare`.
Here it receives the two handles. -/
def myStringComparatorCasting (MYSTR_ERROR_CODE : Int) (str1 str2 : Option MyString) :
    Option Int :=
  myStringCompare MYSTR_ERROR_CODE str1 str2

/-- The function `myStringCustomSort`. The library function `qsort` is a
parameter: `qsort base nmemb compar` is the content of the array after the
call, or `none` when the call is undefined. `arr` is `NULL` or the array of
handles. Returns the state of the array after the call. -/
def myStringCustomSort {α : Type}
    (qsort : List α → Nat → (α → α → Option Int) → Option (List α))
    (arr : Option (List α)) (len : Nat) (comparator : Option (α → α → Option Int)) :
    Option (Option (List α)) :=
  match arr, comparator with
  | some a, some c =>
    if len > 0 then
      match qsort a len c with
      | none => none
      | some sorted => some (some sorted)
    else some arr
  | _, _ => some arr

/-- The function `myStringSort`. -/
def myStringSort
    (qsort : List (Option MyString) → Nat →
      (Option MyString → Option MyString → Option Int) → Option (List (Option MyString)))
    (MYSTR_ERROR_CODE : Int) (arr : Option (List (Option MyString))) (len : Nat) :
    Option (Option (List (Option MyString))) :=
  match arr with
  | none => some arr
  | some _ =>
    if len > 0 then
      myStringCustomSort qsort arr len (some (myStringComparatorCasting MYSTR_ERROR_CODE))
    else some arr

/-! ## Memory usage -/

/-- The function `myStringMemUsage`. Its first term is `sizeof (str1)`, the size
of the pointer `str1`, an implementation-defined number of bytes that is a
parameter here; `sizeof (char)` is `1`. Sizes are natural numbers: the sum stays
in the range of `unsigned long` for every string that fits in memory. -/
def myStringMemUsage (sizeofPointer : Nat) (str1 : Option MyString) : Nat :=
  match str1 with
  | none => 0
  | some s => sizeofPointer + s._length * 1

/-! ## Specification-side notions -/

/-- Decimal value of a sequence of digit chars written most significant first,
as the specification reads a numeral. -/
def decimalValue (ds : List Int) : Int :=
  ds.foldl (fun acc c => acc * 10 + (c - 48)) 0

/-- Chars of the decimal digits of `m`, most significant first and without a
leading zero (none at all for `0`), as the specification writes a magnitude. -/
def digitChars (m : Nat) : List Int :=
  List.map (fun (d : Nat) => (d : Int) + 48) (Nat.digits 10 m).reverse

/-- The chars a string object holds: the content of its buffer, nothing when
the buffer is absent. -/
def bytes (s : MyString) : List Int :=
  match s._string with
  | none => []
  | some b => b

/-- The chars behind a handle: those of the string it points to, nothing for
`NULL`. -/
def content (x : Option MyString) : List Int :=
  match x with
  | none => []
  | some s => bytes s

/-- The array of the sorting tests: `"abb"`, `"aab"`, `"bbb"`, `"aaa"`. -/
def testSortArray : List (Option MyString) :=
  [some (mk [97, 98, 98]), some (mk [97, 97, 98]), some (mk [98, 98, 98]),
    some (mk [97, 97, 97])]

/-- The invariant of the data model: the stored length is the number of chars
the buffer holds. -/
def WellFormed (s : MyString) : Prop := s._length = (bytes s).length

instance (s : MyString) : Decidable (WellFormed s) := by
  unfold WellFormed
  infer_instance

/-- Lexicographic comparison of two char sequences by char value, a proper
prefix being smaller: the ordering the specification gives to `compare`. -/
def lexCmp : List Int → List Int → Int
  | [], [] => 0
  | [], _ :: _ => -1
  | _ :: _, [] => 1
  | x :: xs, y :: ys =>
    if x > y then 1
    else if x < y then -1
    else lexCmp xs ys

/-- What the C standard asks of the comparison function given to `qsort`, on
the elements of the array: it returns a value for every pair, the same objects
always compare the same way, and the values describe a total ordering. -/
def ComparatorConsistent {α : Type} (compar : α → α → Option Int) (base : List α) : Prop :=
  ∃ f : α → α → Int,
    (∀ x ∈ base, ∀ y ∈ base, compar x y = some (f x y))
    ∧ (∀ x ∈ base, ∀ y ∈ base, (f x y < 0 ↔ 0 < f y x) ∧ (f x y = 0 ↔ f y x = 0))
    ∧ (∀ x ∈ base, ∀ y ∈ base, ∀ z ∈ base, f x y ≤ 0 → f y z ≤ 0 → f x z ≤ 0)

/-- The contract of the library function `qsort`: called on the whole array
with a consistent comparison function, it returns, and leaves the same
elements in ascending order according to that function. -/
def QsortContract {α : Type}
    (qsort : List α → Nat → (α → α → Option Int) → Option (List α)) : Prop :=
  ∀ (base : List α) (nmemb : Nat) (compar : α → α → Option Int),
    nmemb = base.length → ComparatorConsistent compar base →
    ∃ sorted, qsort base nmemb compar = some sorted
      ∧ sorted.Perm base
      ∧ sorted.Pairwise (fun x y => ∃ r, compar x y = some r ∧ r ≤ 0)

/-- Relation "`compar x y` returns a value that is at most `0`". -/
def comparLe {α : Type} (compar : α → α → Option Int) (x y : α) : Prop :=
  match compar x y with
  | some r => r ≤ 0
  | none => False

instance {α : Type} (compar : α → α → Option Int) : DecidableRel (comparLe compar) := by
  intro x y
  unfold comparLe
  cases compar x y <;> infer_instance

/-- An insertion sort of the first `nmemb` elements: one function that meets
the contract of `qsort`. -/
def insertionQsort {α : Type} (base : List α) (nmemb : Nat) (compar : α → α → Option Int) :
    Option (List α) :=
  some (List.insertionSort (comparLe compar) (base.take nmemb) ++ base.drop nmemb)

/-- The value, as the C type `char`, of the raw byte `b` (from `0` to `255`):
the byte itself where `char` is unsigned, and `b - 256` for the bytes from `128`
where `char` is signed. -/
def charOfByte (charIsSigned : Bool) (b : Nat) : Int :=
  if charIsSigned = true ∧ 128 ≤ b then (b : Int) - 256 else (b : Int)

/-- The two strings hold the same chars: same length and the same char at
every position. -/
def sameChars (a b : MyString) : Prop :=
  a._length = b._length ∧ ∀ i, i < a._length → (bytes a).get? i = (bytes b).get? i

/-! ## Arithmetic of `wrapInt` -/

theorem wrapInt_range (x : Int) : INT_MIN ≤ wrapInt x ∧ wrapInt x ≤ INT_MAX := by
  unfold wrapInt INT_MIN INT_MAX
  omega

theorem wrapInt_of_range (x : Int) (h1 : INT_MIN ≤ x) (h2 : x ≤ INT_MAX) : wrapInt x = x := by
  unfold wrapInt
  unfold INT_MIN at h1
  unfold INT_MAX at h2
  omega

theorem wrapInt_modEq (x : Int) : wrapInt x ≡ x [ZMOD 4294967296] := by
  unfold Int.ModEq wrapInt
  omega

theorem eq_of_modEq_of_range (a b : Int) (h : a ≡ b [ZMOD 4294967296])
    (ha1 : INT_MIN ≤ a) (ha2 : a ≤ INT_MAX) (hb1 : INT_MIN ≤ b) (hb2 : b ≤ INT_MAX) :
    a = b := by
  unfold Int.ModEq at h
  unfold INT_MIN at ha1 hb1
  unfold INT_MAX at ha2 hb2
  omega

theorem decimalValue_append_singleton (l : List Int) (c : Int) :
    decimalValue (l ++ [c]) = decimalValue l * 10 + (c - 48) := by
  simp [decimalValue, List.foldl_append]

/-! ## The parsing loop on a run of digits -/

theorem readAt_append_middle (pre mid post : List Int) (c : Int) :
    readAt (some (pre ++ (mid ++ [c]) ++ post)) (pre.length + mid.length) = some c := by
  have hbuf : pre ++ (mid ++ [c]) ++ post = (pre ++ mid) ++ (c :: post) := by simp
  have hidx : pre.length + mid.length = (pre ++ mid).length := by simp
  rw [hbuf, hidx, readAt, List.get?_eq_getElem?, List.getElem?_append_right (le_refl _)]
  simp

/-- Running the loop of `myStringToInt` over a run `mid` of digits that sits
between `pre` and `post` multiplies the power by `10 ^ mid.length` and adds
`power * decimalValue mid` to the accumulator, modulo `2 ^ 32`. -/
theorem myStringToIntLoop_digits (E : Int) (pre : List Int) :
    ∀ (mid post : List Int) (power num : Int),
      (∀ c ∈ mid, 48 ≤ c ∧ c ≤ 57) →
      INT_MIN ≤ num → num ≤ INT_MAX →
      ∃ power2 num2 : Int,
        myStringToIntLoop E (some (pre ++ mid ++ post)) (pre.length + mid.length) power num
          = myStringToIntLoop E (some (pre ++ mid ++ post)) pre.length power2 num2
        ∧ power2 ≡ power * 10 ^ mid.length [ZMOD 4294967296]
        ∧ num2 ≡ num + power * decimalValue mid [ZMOD 4294967296]
        ∧ INT_MIN ≤ num2 ∧ num2 ≤ INT_MAX := by
  intro mid
  induction mid using List.reverseRecOn with
  | nil =>
    intro post power num _ h1 h2
    exact ⟨power, num, by simp, by simp, by simp [decimalValue], h1, h2⟩
  | append_singleton mid c ih =>
    intro post power num hd h1 h2
    have hc : 48 ≤ c ∧ c ≤ 57 := hd c (by simp)
    have hmid : ∀ x ∈ mid, 48 ≤ x ∧ x ≤ 57 := fun x hx => hd x (by simp [hx])
    obtain ⟨p2, n2, heq, hp, hn, hr1, hr2⟩ :=
      ih ([c] ++ post) (wrapInt (power * 10))
        (wrapInt (num + wrapInt ((c - TO_INT_ASCII) * power))) hmid
        (wrapInt_range _).1 (wrapInt_range _).2
    refine ⟨p2, n2, ?_, ?_, ?_, hr1, hr2⟩
    · have hlen : pre.length + (mid ++ [c]).length = (pre.length + mid.length) + 1 := by
        simp; omega
      rw [hlen, myStringToIntLoop, readAt_append_middle]
      have hbuf : pre ++ (mid ++ [c]) ++ post = pre ++ mid ++ ([c] ++ post) := by simp
      simp only [ZERO_ASCII, NINE_ASCII, ge_iff_le, hc.1, hc.2, and_self, if_true]
      rw [hbuf]
      exact heq
    · have h10 : wrapInt (power * 10) ≡ power * 10 [ZMOD 4294967296] := wrapInt_modEq _
      have := hp.trans (h10.mul_right (10 ^ mid.length))
      refine this.trans ?_
      have e : power * 10 * 10 ^ mid.length = power * 10 ^ (mid ++ [c]).length := by
        simp [pow_succ]; ring
      rw [e]
    · have h10 : wrapInt (power * 10) ≡ power * 10 [ZMOD 4294967296] := wrapInt_modEq _
      have hin : wrapInt (num + wrapInt ((c - TO_INT_ASCII) * power))
          ≡ num + (c - 48) * power [ZMOD 4294967296] :=
        (wrapInt_modEq _).trans (Int.ModEq.add_left num (wrapInt_modEq _))
      have := hn.trans (hin.add (h10.mul_right (decimalValue mid)))
      refine this.trans ?_
      rw [decimalValue_append_singleton]
      have e : num + (c - 48) * power + power * 10 * decimalValue mid
          = num + power * (decimalValue mid * 10 + (c - 48)) := by ring
      rw [e]

theorem toInt_start (len : Nat) (h1 : 1 ≤ len) (h2 : len ≤ 2147483648) :
    (wrapInt ((len : Int) - 1) + 1).toNat = len := by
  unfold wrapInt
  omega

/-- Parsing of a well-formed numeral: the loop of `myStringToInt` runs over the
digits, then over the sign if there is one, and what it returns is congruent
to the signed value modulo `2 ^ 32`, hence equal to it when it fits. -/
theorem myStringToInt_numeral (E : Int) (s : MyString) (sign ds : List Int)
    (hsign : sign = [] ∨ sign = [43] ∨ sign = [45])
    (hne : ds ≠ [])
    (hds : ∀ c ∈ ds, 48 ≤ c ∧ c ≤ 57)
    (hbuf : s._string = some (sign ++ ds))
    (hlen : s._length = (sign ++ ds).length)
    (hsize : s._length ≤ 2147483648)
    (hmin : INT_MIN ≤ (if sign = [45] then - decimalValue ds else decimalValue ds))
    (hmax : (if sign = [45] then - decimalValue ds else decimalValue ds) ≤ INT_MAX) :
    myStringToInt E (some s)
      = some (if sign = [45] then - decimalValue ds else decimalValue ds) := by
  have hpos : 1 ≤ ds.length := by
    cases ds with
    | nil => exact absurd rfl hne
    | cons a t => simp
  have hstart : (wrapInt ((s._length : Int) - 1) + 1).toNat = sign.length + ds.length := by
    rw [toInt_start s._length (by rw [hlen]; simp; omega) hsize, hlen]; simp
  obtain ⟨p2, n2, heq, -, hn, hr1, hr2⟩ :=
    myStringToIntLoop_digits E sign ds [] 1 0 hds (by decide) (by decide)
  simp only [List.append_nil, zero_add, one_mul] at heq hn
  unfold myStringToInt
  simp only [hbuf, hstart, heq]
  rcases hsign with h | h | h
  · subst h
    simp only [List.length_nil, myStringToIntLoop]
    have hv : ([] : List Int) ≠ [45] := by simp
    simp only [hv, if_false] at hmin hmax ⊢
    rw [eq_of_modEq_of_range _ _ hn hr1 hr2 hmin hmax]
  · subst h
    have hv : ([43] : List Int) ≠ [45] := by decide
    simp only [hv, if_false] at hmin hmax ⊢
    have hrd : readAt (some ([43] ++ ds)) 0 = some 43 := by simp [readAt]
    simp only [List.length_singleton, myStringToIntLoop, hrd]
    simp only [ZERO_ASCII, NINE_ASCII, PLUS_ASCII, MINUS_ASCII]
    rw [eq_of_modEq_of_range _ _ hn hr1 hr2 hmin hmax]
    simp
  · subst h
    simp only [if_true] at hmin hmax ⊢
    have hrd : readAt (some ([45] ++ ds)) 0 = some 45 := by simp [readAt]
    simp only [List.length_singleton, myStringToIntLoop, hrd]
    simp only [ZERO_ASCII, NINE_ASCII, PLUS_ASCII, MINUS_ASCII]
    have hneg : wrapInt (n2 * -1) ≡ - decimalValue ds [ZMOD 4294967296] := by
      refine (wrapInt_modEq _).trans ?_
      have := hn.mul_right (-1)
      simpa using this
    rw [← eq_of_modEq_of_range _ _ hneg (wrapInt_range _).1 (wrapInt_range _).2 hmin hmax]
    simp

/-- C2: on a string made of an optional single leading `+` or `-` followed by
one or more decimal digits, whose signed decimal value fits in an `int`,
`myStringToInt` returns that value. The string is one whose last index fits
the `int` loop variable (at most `2 ^ 31` chars). -/
theorem myStringToInt_signed_decimal (E : Int) (s : MyString) (sign ds : List Int)
    (hsign : sign = [] ∨ sign = [PLUS_ASCII] ∨ sign = [MINUS_ASCII])
    (hne : ds ≠ [])
    (hds : ∀ c ∈ ds, ZERO_ASCII ≤ c ∧ c ≤ NINE_ASCII)
    (hbuf : s._string = some (sign ++ ds))
    (hlen : s._length = (sign ++ ds).length)
    (hsize : s._length ≤ 2147483648)
    (hmin : INT_MIN ≤ (if sign = [MINUS_ASCII] then - decimalValue ds else decimalValue ds))
    (hmax : (if sign = [MINUS_ASCII] then - decimalValue ds else decimalValue ds) ≤ INT_MAX) :
    myStringToInt E (some s)
      = some (if sign = [MINUS_ASCII] then - decimalValue ds else decimalValue ds) :=
  myStringToInt_numeral E s sign ds hsign hne hds hbuf hlen hsize hmin hmax

/-- Witness of C2: the numeral `-2147483648` parses to `INT_MIN`. -/
theorem myStringToInt_signed_decimal_witness :
    myStringToInt (-999) (some (mk ([45] ++ [50, 49, 52, 55, 52, 56, 51, 54, 52, 56])))
      = some (-2147483648) :=
  (myStringToInt_signed_decimal (-999) (mk ([45] ++ [50, 49, 52, 55, 52, 56, 51, 54, 52, 56]))
    [45] [50, 49, 52, 55, 52, 56, 51, 54, 52, 56]
    (by decide) (by decide) (by decide) rfl rfl (by decide) (by decide) (by decide)).trans
    (by decide)

/-! ## Rejection of malformed numerals -/

/-- Once the loop of `myStringToInt` still has to visit an index that holds a
char which is neither a digit nor a sign at index `0`, it returns the
sentinel, whatever the power and the accumulator are. -/
theorem myStringToIntLoop_bad (E : Int) (buf : List Int) (i : Nat) (c : Int)
    (hget : buf.get? i = some c)
    (hnd : ¬ (48 ≤ c ∧ c ≤ 57))
    (hns : ¬ (i = 0 ∧ (c = 43 ∨ c = 45))) :
    ∀ (k : Nat) (power num : Int), i < k → k ≤ buf.length →
      myStringToIntLoop E (some buf) k power num = some E := by
  intro k
  induction k with
  | zero => intro _ _ h; omega
  | succ k ih =>
    intro power num hik hk
    have hlt : k < buf.length := by omega
    have hrd : readAt (some buf) k = some (buf.get ⟨k, hlt⟩) := by
      simp [readAt, List.getElem?_eq_getElem hlt]
    rw [myStringToIntLoop, hrd]
    simp only [ZERO_ASCII, NINE_ASCII, PLUS_ASCII, MINUS_ASCII, ge_iff_le]
    by_cases hki : k = i
    · subst hki
      have hc : buf.get ⟨k, hlt⟩ = c := by
        have := hget
        rw [List.get?_eq_get hlt] at this
        exact Option.some.inj this
      rw [hc]
      rw [if_neg hnd, if_neg hns]
    · have hik2 : i < k := by omega
      have hk0 : k ≠ 0 := by omega
      by_cases hd : 48 ≤ buf.get ⟨k, hlt⟩ ∧ buf.get ⟨k, hlt⟩ ≤ 57
      · rw [if_pos hd]
        exact ih _ _ hik2 (by omega)
      · rw [if_neg hd, if_neg (fun h => hk0 h.1)]

/-- A string with a char that is neither a digit nor a sign at index `0` is
rejected by `myStringToInt`. -/
theorem myStringToInt_bad_char (E : Int) (s : MyString) (buf : List Int) (i : Nat) (c : Int)
    (hbuf : s._string = some buf)
    (hlen : s._length = buf.length)
    (hsize : s._length ≤ 2147483648)
    (hget : buf.get? i = some c)
    (hnd : ¬ (48 ≤ c ∧ c ≤ 57))
    (hns : ¬ (i = 0 ∧ (c = 43 ∨ c = 45))) :
    myStringToInt E (some s) = some E := by
  have hi : i < buf.length := by
    by_contra h
    rw [List.get?_eq_none.mpr (by omega)] at hget
    exact absurd hget (by simp)
  unfold myStringToInt
  simp only [hbuf]
  rw [toInt_start s._length (by omega) hsize]
  exact myStringToIntLoop_bad E buf i c hget hnd hns s._length 1 0 (by omega) (by omega)

/-- C4: when some position of the string holds a char that is neither a
decimal digit nor a `+` or `-` at index `0`, `myStringToInt` returns
`MYSTR_ERROR_CODE`. The string is one whose last index fits the `int` loop
variable (at most `2 ^ 31` chars). -/
theorem myStringToInt_malformed (E : Int) (s : MyString) (buf : List Int) (i : Nat) (c : Int)
    (hbuf : s._string = some buf)
    (hlen : s._length = buf.length)
    (hsize : s._length ≤ 2147483648)
    (hget : buf.get? i = some c)
    (hnd : ¬ (ZERO_ASCII ≤ c ∧ c ≤ NINE_ASCII))
    (hns : ¬ (i = 0 ∧ (c = PLUS_ASCII ∨ c = MINUS_ASCII))) :
    myStringToInt E (some s) = some E :=
  myStringToInt_bad_char E s buf i c hbuf hlen hsize hget hnd hns

/-- Witness of C4: `"1-2"` has a sign at index `1`. -/
theorem myStringToInt_malformed_witness :
    myStringToInt (-999) (some (mk [49, 45, 50])) = some (-999) :=
  myStringToInt_malformed (-999) (mk [49, 45, 50]) [49, 45, 50] 1 45
    rfl rfl (by decide) rfl (by decide) (by decide)

/-- C3, evaluated: on a string of length `0`, whether its buffer is absent or
an empty allocation, `myStringToInt` returns `0` and not `MYSTR_ERROR_CODE`,
which the comment of the function asks for a string that cannot be parsed as
an integer. The loop starts at `_length - 1 = -1` and is not entered, and no
test for the empty string precedes it. -/
theorem myStringToInt_empty_zero (E : Int) (buf : Option (List Int)) :
    myStringToInt E (some { _string := buf, _length := 0 }) = some 0 := by
  simp [myStringToInt, wrapInt, myStringToIntLoop]

/-- On the empty string `myStringToInt` returns no sentinel other than `0`. -/
theorem myStringToInt_empty_not_error :
    ¬ ∃ E : Int, E ≠ 0 ∧
      myStringToInt E (some { _string := some [], _length := 0 }) = some E := by
  rintro ⟨E, hE, h⟩
  have h0 : myStringToInt E (some { _string := some [], _length := 0 }) = some 0 := by
    simp [myStringToInt, wrapInt, myStringToIntLoop]
  rw [h0] at h
  exact hE (Option.some.inj h).symm

/-! ## The comparison loop -/

theorem get?_eq_some_getD (b : List Int) (i : Nat) (h : i < b.length) :
    b.get? i = some (b.getD i 0) := by
  simp [List.getD, List.getElem?_eq_getElem h]

/-- One turn of the loop of `myStringCustomCompare` at an index inside both
buffers, away from the wrap of the index. -/
theorem myStringCustomCompareLoop_step (b1 b2 : List Int) (cmp : Int → Int → Int)
    (k i : Nat) (h1 : i < b1.length) (h2 : i < b2.length) (hw : i + 1 < 4294967296) :
    myStringCustomCompareLoop b1 b2 b1.length b2.length (some cmp) (k + 1) i
      = if cmp (b1.getD i 0) (b2.getD i 0) > 0 then some 1
        else if cmp (b1.getD i 0) (b2.getD i 0) < 0 then some (-1)
        else myStringCustomCompareLoop b1 b2 b1.length b2.length (some cmp) k (i + 1) := by
  simp only [myStringCustomCompareLoop, h1, h2, and_self, if_true,
    get?_eq_some_getD b1 i h1, get?_eq_some_getD b2 i h2, Nat.mod_eq_of_lt hw]

/-- When the `while` condition fails, the lengths decide. -/
theorem myStringCustomCompareLoop_exit (b1 b2 : List Int) (len1 len2 : Nat)
    (comparator : Option (Int → Int → Int)) (k i : Nat) (h : ¬ (i < len1 ∧ i < len2)) :
    myStringCustomCompareLoop b1 b2 len1 len2 comparator k i
      = if len1 = len2 then some 0
        else if len1 = i then some (-1)
        else some 1 := by
  cases k <;> simp only [myStringCustomCompareLoop, h, if_false]

/-- While the comparator reports `0`, the loop of `myStringCustomCompare`
moves on; at the first index where it does not, the sign of its value is the
result. The shorter length is below `2 ^ 32`, so the index does not wrap. -/
theorem myStringCustomCompareLoop_first_diff (b1 b2 : List Int) (cmp : Int → Int → Int)
    (hm : min b1.length b2.length < 4294967296)
    (d : Nat) (hd : cmp (b1.getD d 0) (b2.getD d 0) ≠ 0)
    (hdm : d < min b1.length b2.length) :
    ∀ (k i : Nat), i ≤ d → d - i < k →
      (∀ j, i ≤ j → j < d → cmp (b1.getD j 0) (b2.getD j 0) = 0) →
      myStringCustomCompareLoop b1 b2 b1.length b2.length (some cmp) k i
        = some (if cmp (b1.getD d 0) (b2.getD d 0) > 0 then 1 else -1) := by
  intro k
  induction k with
  | zero => intro i _ h2; omega
  | succ k ih =>
    intro i hid hdk hz
    have hi1 : i < b1.length := by omega
    have hi2 : i < b2.length := by omega
    rw [myStringCustomCompareLoop_step b1 b2 cmp k i hi1 hi2 (by omega)]
    by_cases hdi : d = i
    · subst hdi
      by_cases hpos : cmp (b1.getD d 0) (b2.getD d 0) > 0
      · rw [if_pos hpos, if_pos hpos]
      · have hneg : cmp (b1.getD d 0) (b2.getD d 0) < 0 := by omega
        rw [if_neg hpos, if_pos hneg, if_neg hpos]
    · have hzi : cmp (b1.getD i 0) (b2.getD i 0) = 0 := hz i (le_refl _) (by omega)
      simp only [hzi, gt_iff_lt, lt_self_iff_false, if_false]
      exact ih (i + 1) (by omega) (by omega) (fun j h1 h2 => hz j (by omega) h2)

/-- When the comparator reports `0` at every index left to visit, the loop of
`myStringCustomCompare` ends and the lengths decide. The shorter length is
below `2 ^ 32`, so the index does not wrap. -/
theorem myStringCustomCompareLoop_all_zero (b1 b2 : List Int) (cmp : Int → Int → Int)
    (hm : min b1.length b2.length < 4294967296) :
    ∀ (k i : Nat), i ≤ min b1.length b2.length → min b1.length b2.length - i ≤ k →
      (∀ j, i ≤ j → j < min b1.length b2.length → cmp (b1.getD j 0) (b2.getD j 0) = 0) →
      myStringCustomCompareLoop b1 b2 b1.length b2.length (some cmp) k i
        = some (if b1.length = b2.length then 0
                else if b1.length < b2.length then -1 else 1) := by
  have hexit : ∀ (k i : Nat), i = min b1.length b2.length →
      myStringCustomCompareLoop b1 b2 b1.length b2.length (some cmp) k i
        = some (if b1.length = b2.length then 0
                else if b1.length < b2.length then -1 else 1) := by
    intro k i hi
    rw [myStringCustomCompareLoop_exit b1 b2 _ _ _ k i (by omega)]
    by_cases heq : b1.length = b2.length
    · simp [heq]
    · by_cases hlt : b1.length < b2.length
      · have hi2 : b1.length = i := by omega
        rw [if_neg heq, if_neg heq, if_pos hi2, if_pos hlt]
      · have hi2 : b1.length ≠ i := by omega
        rw [if_neg heq, if_neg heq, if_neg hi2, if_neg hlt]
  intro k
  induction k with
  | zero =>
    intro i him hk _
    exact hexit 0 i (by omega)
  | succ k ih =>
    intro i him hk hz
    by_cases hi : i = min b1.length b2.length
    · exact hexit (k + 1) i hi
    · have hi1 : i < b1.length := by omega
      have hi2 : i < b2.length := by omega
      rw [myStringCustomCompareLoop_step b1 b2 cmp k i hi1 hi2 (by omega)]
      have hzi : cmp (b1.getD i 0) (b2.getD i 0) = 0 := hz i (le_refl _) (by omega)
      simp only [hzi, gt_iff_lt, lt_self_iff_false, if_false]
      exact ih (i + 1) (by omega) (by omega) (fun j h1 h2 => hz j (by omega) h2)

/-- C7: for strings `a` and `b` with present buffers (holding `_length` chars
each), the shorter of fewer than `2 ^ 32` chars so that the `unsigned int`
index reaches its end, and a comparator `cmp`, the result of
`myStringCustomCompare` is decided by the least index
`k < min (len a) (len b)` at which `cmp` is not `0`: `1` when its value there
is positive, `-1` when negative; when there is no such index the result is `0`
for equal lengths, `-1` when `a` is shorter and `1` when `a` is longer. -/
theorem myStringCustomCompare_first_difference (E : Int) (a b : MyString)
    (b1 b2 : List Int) (cmp : Int → Int → Int)
    (ha : a._string = some b1) (hla : a._length = b1.length)
    (hb : b._string = some b2) (hlb : b._length = b2.length)
    (hsize : min a._length b._length < 4294967296) :
    (∀ k, k < min a._length b._length →
        cmp (b1.getD k 0) (b2.getD k 0) ≠ 0 →
        (∀ j, j < k → cmp (b1.getD j 0) (b2.getD j 0) = 0) →
        myStringCustomCompare E (some a) (some b) (some cmp)
          = some (if cmp (b1.getD k 0) (b2.getD k 0) > 0 then 1 else -1))
    ∧ ((∀ k, k < min a._length b._length → cmp (b1.getD k 0) (b2.getD k 0) = 0) →
        myStringCustomCompare E (some a) (some b) (some cmp)
          = some (if a._length = b._length then 0
                  else if a._length < b._length then -1 else 1)) := by
  rw [hla, hlb] at hsize
  constructor
  · intro k hk hne hz
    simp only [myStringCustomCompare, ha, hb, hla, hlb]
    rw [hla, hlb] at hk
    exact myStringCustomCompareLoop_first_diff b1 b2 cmp hsize k hne hk _ 0 (by omega)
      (by omega) (fun j _ h => hz j h)
  · intro hz
    simp only [myStringCustomCompare, ha, hb, hla, hlb]
    rw [hla, hlb] at hz
    exact myStringCustomCompareLoop_all_zero b1 b2 cmp hsize _ 0 (by omega) (by omega)
      (fun j _ h => hz j h)

/-- Witness of C7: `"abc"` against `"abd"` and against `"abcd"` under the
default comparator. -/
theorem myStringCustomCompare_first_difference_witness :
    myStringCustomCompare (-999) (some (mk [97, 98, 99])) (some (mk [97, 98, 100]))
        (some defaultComparator) = some (-1)
    ∧ myStringCustomCompare (-999) (some (mk [97, 98, 99])) (some (mk [97, 98, 99, 100]))
        (some defaultComparator) = some (-1) :=
  ⟨((myStringCustomCompare_first_difference (-999) (mk [97, 98, 99]) (mk [97, 98, 100])
      [97, 98, 99] [97, 98, 100] defaultComparator rfl rfl rfl rfl (by decide)).1 2
        (by decide) (by decide) (by decide)).trans (by decide),
   ((myStringCustomCompare_first_difference (-999) (mk [97, 98, 99]) (mk [97, 98, 99, 100])
      [97, 98, 99] [97, 98, 99, 100] defaultComparator rfl rfl rfl rfl (by decide)).2
        (by decide)).trans (by decide)⟩

/-! ## Absent buffers -/

/-- With both objects present and a buffer absent, `myStringCustomCompare`
returns the sentinel, whatever the comparator is. -/
theorem customCompare_absent (E : Int) (a b : MyString) (cmp : Option (Int → Int → Int))
    (h : a._string = none ∨ b._string = none) :
    myStringCustomCompare E (some a) (some b) cmp = some E := by
  unfold myStringCustomCompare
  cases ha : a._string with
  | none => simp only [ha]
  | some b1 =>
    cases hb : b._string with
    | none => simp only [ha, hb]
    | some b2 =>
      rcases h with h | h
      · rw [ha] at h; exact absurd h (by simp)
      · rw [hb] at h; exact absurd h (by simp)

theorem customEqual_absent (E : Int) (a b : MyString) (cmp : Option (Int → Int → Int))
    (h : a._string = none ∨ b._string = none) :
    myStringCustomEqual E (some a) (some b) cmp = some E := by
  cases cmp with
  | none => rfl
  | some f =>
    simp only [myStringCustomEqual, customCompare_absent E a b (some f) h, if_true]

/-- C10: for two present string objects of which at least one has an absent
buffer, `myStringCustomCompare`, `myStringCompare`, `myStringCustomEqual` and
`myStringEqual` each return `MYSTR_ERROR_CODE`. -/
theorem compare_equal_absent_buffer (E : Int) (a b : MyString)
    (cmp : Option (Int → Int → Int)) (h : a._string = none ∨ b._string = none) :
    myStringCustomCompare E (some a) (some b) cmp = some E
    ∧ myStringCompare E (some a) (some b) = some E
    ∧ myStringCustomEqual E (some a) (some b) cmp = some E
    ∧ myStringEqual E (some a) (some b) = some E := by
  refine ⟨customCompare_absent E a b cmp h, ?_, customEqual_absent E a b cmp h, ?_⟩
  · simp only [myStringCompare]
    exact customCompare_absent E a b _ h
  · simp only [myStringEqual]
    exact customEqual_absent E a b _ h

/-- Witness of C10: `"abc"` against a string whose buffer is absent. -/
theorem compare_equal_absent_buffer_witness :
    myStringCustomCompare (-999) (some (mk [97, 98, 99])) (some ⟨none, 0⟩)
        (some defaultComparator) = some (-999)
    ∧ myStringCompare (-999) (some (mk [97, 98, 99])) (some ⟨none, 0⟩) = some (-999)
    ∧ myStringCustomEqual (-999) (some (mk [97, 98, 99])) (some ⟨none, 0⟩)
        (some defaultComparator) = some (-999)
    ∧ myStringEqual (-999) (some (mk [97, 98, 99])) (some ⟨none, 0⟩) = some (-999) :=
  compare_equal_absent_buffer (-999) (mk [97, 98, 99]) ⟨none, 0⟩ (some defaultComparator)
    (Or.inr rfl)

/-! ## Clone -/

theorem defaultComparator_self (c : Int) : defaultComparator c c = 0 := by
  simp [defaultComparator]

/-- A string with a present buffer of `_length` chars, fewer than `2 ^ 32`,
compares as equal to itself under the default comparator. -/
theorem customCompare_default_self (E : Int) (s : MyString) (buf : List Int)
    (hbuf : s._string = some buf) (hlen : s._length = buf.length)
    (hsize : s._length < 4294967296) :
    myStringCustomCompare E (some s) (some s) (some defaultComparator) = some 0 := by
  rw [hlen] at hsize
  simp only [myStringCustomCompare, hbuf, hlen]
  rw [myStringCustomCompareLoop_all_zero buf buf defaultComparator (by simpa using hsize)
    _ 0 (by omega) (by simp; omega) (fun j _ _ => defaultComparator_self _)]
  simp

/-- A successful clone of a string with a present buffer of `_length` chars
has the same buffer content and the same length. -/
theorem myStringClone_present (s : MyString) (buf : List Int)
    (hbuf : s._string = some buf) (hlen : s._length = buf.length) :
    myStringClone true true (some s) = some (some s) := by
  obtain ⟨str, len⟩ := s
  simp only at hbuf hlen
  subst hbuf hlen
  by_cases h0 : buf.length = 0
  · have : buf = [] := List.length_eq_zero.mp h0
    subst this
    rfl
  · simp [myStringClone, myStringAlloc, myStringSetFromMyString, malloc, memcpy, h0]

/-- C8, as the code behaves: for every string `s` with a present buffer (of
`_length` chars, fewer than `2 ^ 32` so that the `unsigned int` index of the
comparison reaches its end), and a sentinel other than `0`, the clone `c` of
`s` exists when its allocations succeed, `myStringEqual (s, c)` returns `1`
and `myStringCompare (s, c)` returns `0`. -/
theorem myStringClone_equal_compare (E : Int) (hE : E ≠ 0) (s : MyString) (buf : List Int)
    (hbuf : s._string = some buf) (hlen : s._length = buf.length)
    (hsize : s._length < 4294967296) :
    ∃ c, myStringClone true true (some s) = some (some c)
      ∧ myStringEqual E (some s) (some c) = some 1
      ∧ myStringCompare E (some s) (some c) = some 0 := by
  refine ⟨s, myStringClone_present s buf hbuf hlen, ?_, ?_⟩
  · simp only [myStringEqual, myStringCustomEqual,
      customCompare_default_self E s buf hbuf hlen hsize]
    simp [Ne.symm hE]
  · simp only [myStringCompare]
    exact customCompare_default_self E s buf hbuf hlen hsize

/-- Witness of C8: the clone of `"abc"`. -/
theorem myStringClone_equal_compare_witness :
    ∃ c, myStringClone true true (some (mk [97, 98, 99])) = some (some c)
      ∧ myStringEqual (-999) (some (mk [97, 98, 99])) (some c) = some 1
      ∧ myStringCompare (-999) (some (mk [97, 98, 99])) (some c) = some 0 :=
  myStringClone_equal_compare (-999) (by decide) (mk [97, 98, 99]) [97, 98, 99] rfl rfl
    (by decide)

/-- C8 fails as stated on a freshly allocated string: its clone has an empty
allocation as buffer, and for no sentinel does `myStringEqual` return a
positive value while `myStringCompare` returns `0`; both return the
sentinel. -/
theorem myStringClone_fresh_not_equal :
    myStringAlloc true = some ⟨none, 0⟩
    ∧ myStringClone true true (some ⟨none, 0⟩) = some (some ⟨some [], 0⟩)
    ∧ ¬ ∃ E : Int,
        (∃ v, myStringEqual E (some ⟨none, 0⟩) (some ⟨some [], 0⟩) = some v ∧ 0 < v)
        ∧ myStringCompare E (some ⟨none, 0⟩) (some ⟨some [], 0⟩) = some 0 := by
  refine ⟨rfl, rfl, ?_⟩
  rintro ⟨E, ⟨v, hv, hpos⟩, hc⟩
  have h1 : myStringEqual E (some ⟨none, 0⟩) (some ⟨some [], 0⟩) = some E := by
    simp only [myStringEqual]
    exact customEqual_absent E _ _ _ (Or.inl rfl)
  have h2 : myStringCompare E (some ⟨none, 0⟩) (some ⟨some [], 0⟩) = some E := by
    simp only [myStringCompare]
    exact customCompare_absent E _ _ _ (Or.inl rfl)
  rw [h1] at hv
  rw [h2] at hc
  have e1 : E = v := Option.some.inj hv
  have e2 : E = 0 := Option.some.inj hc
  omega

/-! ## The two representations of the empty string -/

/-- C9, as the code behaves: an empty string whose buffer is absent is not
treated like one whose buffer is an empty allocation. With an absent buffer on
either side `myStringCompare` and `myStringEqual` return `MYSTR_ERROR_CODE`,
and `myStringFilter` returns `MYSTRING_ERROR` and leaves the string as it was.
On empty allocations `myStringCompare` returns `0`, `myStringEqual` returns `1`
(for a sentinel other than `0`), and `myStringFilter` succeeds when the
allocation of the new buffer does and leaves an empty allocation. -/
theorem empty_representations_differ (E : Int) (hE : E ≠ 0) (t : MyString)
    (f : Int → Bool) (m1 m2 : Bool) :
    myStringCompare E (some ⟨none, 0⟩) (some t) = some E
    ∧ myStringCompare E (some t) (some ⟨none, 0⟩) = some E
    ∧ myStringEqual E (some ⟨none, 0⟩) (some t) = some E
    ∧ myStringEqual E (some t) (some ⟨none, 0⟩) = some E
    ∧ myStringFilter m1 m2 (some ⟨none, 0⟩) (some f) = some (MYSTRING_ERROR, some ⟨none, 0⟩)
    ∧ myStringCompare E (some ⟨some [], 0⟩) (some ⟨some [], 0⟩) = some 0
    ∧ myStringEqual E (some ⟨some [], 0⟩) (some ⟨some [], 0⟩) = some 1
    ∧ myStringFilter m1 true (some ⟨some [], 0⟩) (some f)
        = some (MYSTRING_SUCCESS, some ⟨some [], 0⟩) := by
  refine ⟨?_, ?_, ?_, ?_, rfl, rfl, ?_, ?_⟩
  · simp only [myStringCompare]
    exact customCompare_absent E _ _ _ (Or.inl rfl)
  · simp only [myStringCompare]
    exact customCompare_absent E _ _ _ (Or.inr rfl)
  · simp only [myStringEqual]
    exact customEqual_absent E _ _ _ (Or.inl rfl)
  · simp only [myStringEqual]
    exact customEqual_absent E _ _ _ (Or.inr rfl)
  · simp [myStringEqual, myStringCustomEqual, myStringCustomCompare,
      myStringCustomCompareLoop, Ne.symm hE]
  · cases m1 <;> rfl

/-- Witness of C9 as amended, at the sentinel `-999`, the string `"abc"` and
the test predicate. -/
theorem empty_representations_differ_witness :
    myStringCompare (-999) (some ⟨none, 0⟩) (some (mk [97, 98, 99])) = some (-999)
    ∧ myStringCompare (-999) (some (mk [97, 98, 99])) (some ⟨none, 0⟩) = some (-999)
    ∧ myStringEqual (-999) (some ⟨none, 0⟩) (some (mk [97, 98, 99])) = some (-999)
    ∧ myStringEqual (-999) (some (mk [97, 98, 99])) (some ⟨none, 0⟩) = some (-999)
    ∧ myStringFilter true true (some ⟨none, 0⟩) (some filter)
        = some (MYSTRING_ERROR, some ⟨none, 0⟩)
    ∧ myStringCompare (-999) (some ⟨some [], 0⟩) (some ⟨some [], 0⟩) = some 0
    ∧ myStringEqual (-999) (some ⟨some [], 0⟩) (some ⟨some [], 0⟩) = some 1
    ∧ myStringFilter true true (some ⟨some [], 0⟩) (some filter)
        = some (MYSTRING_SUCCESS, some ⟨some [], 0⟩) :=
  empty_representations_differ (-999) (by decide) (mk [97, 98, 99]) filter true true

/-- C9 fails as stated: `myStringFilter` fails on the string `myStringAlloc`
returns and succeeds on an empty allocation, and for no sentinel other than
`0` does `myStringCompare` report two freshly allocated strings as equal. -/
theorem empty_representations_not_equivalent :
    myStringAlloc true = some ⟨none, 0⟩
    ∧ myStringFilter true true (some ⟨none, 0⟩) (some filter)
        = some (MYSTRING_ERROR, some ⟨none, 0⟩)
    ∧ myStringFilter true true (some ⟨some [], 0⟩) (some filter)
        = some (MYSTRING_SUCCESS, some ⟨some [], 0⟩)
    ∧ ¬ ∃ E : Int, E ≠ 0 ∧
        myStringCompare E (some ⟨none, 0⟩) (some ⟨none, 0⟩) = some 0 := by
  refine ⟨rfl, rfl, rfl, ?_⟩
  rintro ⟨E, hE, h⟩
  have h2 : myStringCompare E (some ⟨none, 0⟩) (some ⟨none, 0⟩) = some E := by
    simp only [myStringCompare]
    exact customCompare_absent E _ _ _ (Or.inl rfl)
  rw [h2] at h
  exact hE (Option.some.inj h)

/-! ## Formatting of integers other than `0` and `INT_MIN` -/

theorem digitChars_step (m : Nat) (hm : m ≠ 0) :
    digitChars m = digitChars (m / 10) ++ [((m % 10 : Nat) : Int) + 48] := by
  unfold digitChars
  rw [Nat.digits_def' (by norm_num) (Nat.pos_of_ne_zero hm)]
  simp

theorem digits_length_step (m : Nat) (hm : m ≠ 0) :
    (Nat.digits 10 m).length = (Nat.digits 10 (m / 10)).length + 1 := by
  rw [Nat.digits_def' (by norm_num) (Nat.pos_of_ne_zero hm)]
  simp

theorem digitChars_length (m : Nat) : (digitChars m).length = (Nat.digits 10 m).length := by
  unfold digitChars
  rw [List.length_map, List.length_reverse]

/-- The loop of `getNumOfDigits` adds the number of decimal digits of `|num|`
to the counter, as soon as it is allowed `|num|` iterations. -/
theorem getNumOfDigitsLoop_eq :
    ∀ (fuel : Nat) (num : Int) (acc : Nat), num.natAbs ≤ fuel →
      getNumOfDigitsLoop fuel num acc = acc + (Nat.digits 10 num.natAbs).length := by
  intro fuel
  induction fuel with
  | zero =>
    intro num acc h
    have : num.natAbs = 0 := by omega
    simp [getNumOfDigitsLoop, this]
  | succ fuel ih =>
    intro num acc h
    by_cases h0 : num = 0
    · subst h0
      simp [getNumOfDigitsLoop]
    · have hab : num.natAbs ≠ 0 := by omega
      have hdiv : (Int.tdiv num 10).natAbs = num.natAbs / 10 := by
        rw [Int.natAbs_tdiv]; rfl
      rw [getNumOfDigitsLoop, if_pos h0, ih _ _ (by rw [hdiv]; omega), hdiv,
        digits_length_step _ hab]
      omega

theorem getNumOfDigits_eq (num : Int) :
    getNumOfDigits num = (Nat.digits 10 num.natAbs).length := by
  unfold getNumOfDigits
  rw [getNumOfDigitsLoop_eq _ _ _ (le_refl _)]
  simp

theorem set_append_cons (A B : List Int) (x v : Int) :
    (A ++ x :: B).set A.length v = A ++ v :: B := by
  induction A with
  | nil => rfl
  | cons a A ih => simp [ih]

/-- The loop of `myStringSetFromInt`, started on a non-negative `n` with as
many iterations as `n` has digits, fills the chars between the part `pre`
and the part `post` of the buffer with the digits of `n`. -/
theorem setFromIntLoop_digits (pre : List Int) :
    ∀ (k m : Nat) (hole post : List Int),
      (Nat.digits 10 m).length = k → hole.length = k →
      setFromIntLoop (pre.length + k + post.length) k post.length (m : Int)
          (pre ++ hole ++ post)
        = some (pre ++ digitChars m ++ post) := by
  intro k
  induction k with
  | zero =>
    intro m hole post hd hh
    have hm : m = 0 := by
      by_contra hne
      rw [digits_length_step m hne] at hd
      omega
    have hhole : hole = [] := List.length_eq_zero.mp hh
    subst hm hhole
    simp [setFromIntLoop, digitChars]
  | succ k ih =>
    intro m hole post hd hh
    have hm : m ≠ 0 := by
      intro h0
      subst h0
      simp at hd
    rcases List.eq_nil_or_concat hole with hnil | ⟨hole2, x, hx⟩
    · subst hnil
      simp at hh
    · rw [List.concat_eq_append] at hx
      subst hx
      have hh2 : hole2.length = k := by simpa using hh
      have hd2 : (Nat.digits 10 (m / 10)).length = k := by
        rw [digits_length_step m hm] at hd
        omega
      have hidx : pre.length + (k + 1) + post.length - post.length - 1 = (pre ++ hole2).length := by
        simp [hh2]
      have hbuf : pre ++ (hole2 ++ [x]) ++ post = (pre ++ hole2) ++ x :: post := by simp
      have hdivm : Int.tdiv (m : Int) 10 = ((m / 10 : Nat) : Int) := by
        rw [Int.tdiv_eq_ediv (by omega) (by omega)]
        omega
      have hmodm : Int.tmod (m : Int) 10 = ((m % 10 : Nat) : Int) := by
        rw [Int.tmod_eq_emod (by omega) (by omega)]
        omega
      rw [setFromIntLoop, hidx, hbuf, if_pos (by simp), set_append_cons, hdivm, hmodm]
      have hlen : pre.length + (k + 1) + post.length
          = pre.length + k + ((((m % 10 : Nat) : Int) + TO_INT_ASCII) :: post).length := by
        simp; omega
      have hpost : post.length + 1
          = ((((m % 10 : Nat) : Int) + TO_INT_ASCII) :: post).length := by
        simp
      rw [hlen, hpost, ih (m / 10) hole2 _ hd2 hh2, digitChars_step m hm]
      simp [TO_INT_ASCII]

/-- For `n > 0`, a successful `myStringSetFromInt` leaves exactly the digits
of `n`. -/
theorem myStringSetFromInt_pos (s : MyString) (n : Int) (h0 : 0 < n) :
    myStringSetFromInt true (some s) n
      = some (MYSTRING_SUCCESS, some (mk (digitChars n.natAbs))) := by
  have hn : n = (n.natAbs : Int) := by omega
  have hnl : ¬ n < 0 := by omega
  have key := setFromIntLoop_digits [] (Nat.digits 10 n.natAbs).length n.natAbs
    (List.replicate (Nat.digits 10 n.natAbs).length 0) [] rfl (by simp)
  simp only [List.length_nil, zero_add, add_zero, List.nil_append, List.append_nil] at key
  simp only [myStringSetFromInt, getNumOfDigits_eq, if_neg hnl, malloc, if_true]
  rw [hn, Int.natAbs_ofNat, key]
  simp [mk, digitChars_length]

/-- For `INT_MIN < n < 0`, a successful `myStringSetFromInt` leaves `'-'`
followed by the digits of `|n|`. -/
theorem myStringSetFromInt_neg (s : MyString) (n : Int) (h0 : n < 0) (h1 : INT_MIN < n) :
    myStringSetFromInt true (some s) n
      = some (MYSTRING_SUCCESS, some (mk (45 :: digitChars n.natAbs))) := by
  have hw : wrapInt (n * -1) = (n.natAbs : Int) := by
    unfold INT_MIN at h1
    unfold wrapInt
    omega
  have key := setFromIntLoop_digits [45] (Nat.digits 10 n.natAbs).length n.natAbs
    (List.replicate (Nat.digits 10 n.natAbs).length 0) [] rfl (by simp)
  simp only [List.length_nil, List.length_singleton, add_zero, List.append_nil] at key
  simp only [myStringSetFromInt, getNumOfDigits_eq, if_pos h0, malloc, if_true, hw]
  have hb : (List.replicate ((Nat.digits 10 n.natAbs).length + 1) (0 : Int)).set 0 45
      = [45] ++ List.replicate (Nat.digits 10 n.natAbs).length 0 := by
    simp [List.replicate_succ]
  have hl : (Nat.digits 10 n.natAbs).length + 1 = 1 + (Nat.digits 10 n.natAbs).length := by
    omega
  rw [hb, hl, key]
  simp [mk, digitChars_length]; omega

/-! ## Round trip away from `INT_MIN` -/

theorem digitChars_isDigit (m : Nat) : ∀ c ∈ digitChars m, 48 ≤ c ∧ c ≤ 57 := by
  intro c hc
  unfold digitChars at hc
  rw [List.mem_map] at hc
  obtain ⟨d, hd, rfl⟩ := hc
  have := Nat.digits_lt_base (by norm_num : 1 < 10) (List.mem_reverse.mp hd)
  omega

theorem digitChars_ne_nil (m : Nat) (hm : m ≠ 0) : digitChars m ≠ [] := by
  rw [digitChars_step m hm]
  simp

theorem decimalValue_digitChars (m : Nat) : decimalValue (digitChars m) = (m : Int) := by
  induction m using Nat.strong_induction_on with
  | _ m ih =>
    by_cases hm : m = 0
    · subst hm
      simp [digitChars, decimalValue]
    · rw [digitChars_step m hm, decimalValue_append_singleton, ih (m / 10) (by omega)]
      omega

theorem digits_length_le (m : Nat) : (Nat.digits 10 m).length ≤ m := by
  induction m using Nat.strong_induction_on with
  | _ m ih =>
    by_cases hm : m = 0
    · subst hm
      simp
    · rw [digits_length_step m hm]
      have := ih (m / 10) (by omega)
      omega

/-- For every `int` other than `INT_MIN`, `myStringToInt` on the string a
successful `myStringSetFromInt` leaves returns the integer; for `0` this goes
through the empty string. -/
theorem roundTrip_above_INT_MIN (E : Int) (s : MyString) (n : Int)
    (h1 : INT_MIN < n) (h2 : n ≤ INT_MAX) :
    ∃ t : MyString,
      myStringSetFromInt true (some s) n = some (MYSTRING_SUCCESS, some t)
      ∧ myStringToInt E (some t) = some n := by
  have hlenle := digits_length_le n.natAbs
  have hdl := digitChars_length n.natAbs
  have hval := decimalValue_digitChars n.natAbs
  unfold INT_MIN at h1
  unfold INT_MAX at h2
  rcases lt_trichotomy n 0 with hn | hn | hn
  · refine ⟨_, myStringSetFromInt_neg s n hn (by unfold INT_MIN; exact h1), ?_⟩
    have hne : n.natAbs ≠ 0 := by omega
    have := myStringToInt_numeral E (mk (45 :: digitChars n.natAbs)) [45]
      (digitChars n.natAbs) (by simp) (digitChars_ne_nil _ hne) (digitChars_isDigit _)
      rfl rfl (by simp [mk]; omega)
      (by simp only [if_true]; unfold INT_MIN; omega)
      (by simp only [if_true]; unfold INT_MAX; omega)
    simp only [if_true] at this
    rw [this, hval]
    congr 1
    omega
  · subst hn
    exact ⟨⟨some [], 0⟩, rfl, by simp [myStringToInt, wrapInt, myStringToIntLoop]⟩
  · refine ⟨_, myStringSetFromInt_pos s n hn, ?_⟩
    have hne : n.natAbs ≠ 0 := by omega
    have hv : ([] : List Int) ≠ [45] := by simp
    have := myStringToInt_numeral E (mk (digitChars n.natAbs)) []
      (digitChars n.natAbs) (by simp) (digitChars_ne_nil _ hne) (digitChars_isDigit _)
      rfl rfl (by simp [mk]; omega)
      (by simp only [hv, if_false]; unfold INT_MIN; omega)
      (by simp only [hv, if_false]; unfold INT_MAX; omega)
    simp only [hv, if_false] at this
    rw [this, hval]
    congr 1
    omega

/-! ## `myStringSetFromInt` at `0` and at `INT_MIN` -/

/-- C6, evaluated: `myStringSetFromInt (str, 0)` leaves `str` with length `0`
and an empty allocation when `malloc (0)` gives one, and fails with an absent
buffer when `malloc (0)` gives `NULL`; in neither case does `str` hold `"0"`. -/
theorem myStringSetFromInt_zero (s : MyString) :
    myStringSetFromInt true (some s) 0 = some (MYSTRING_SUCCESS, some ⟨some [], 0⟩)
    ∧ myStringSetFromInt false (some s) 0 = some (MYSTRING_ERROR, some ⟨none, 0⟩) := by
  constructor <;> rfl

/-- C5, evaluated: at `0` a successful `myStringSetFromInt` leaves no digit at
all, and at `INT_MIN` it leaves `'-'` followed by the ten chars `./,),(-*,(`,
none of which is a digit. -/
theorem myStringSetFromInt_not_canonical :
    myStringSetFromInt true (some ⟨none, 0⟩) 0
        = some (MYSTRING_SUCCESS, some ⟨some [], 0⟩)
    ∧ myStringSetFromInt true (some ⟨none, 0⟩) INT_MIN
        = some (MYSTRING_SUCCESS,
            some ⟨some [45, 46, 47, 44, 41, 44, 40, 45, 42, 44, 40], 11⟩)
    ∧ ∀ c ∈ [46, 47, 44, 41, 44, 40, 45, 42, 44, 40], ¬ (ZERO_ASCII ≤ c ∧ c ≤ NINE_ASCII) := by
  refine ⟨rfl, by decide, by decide⟩

/-- C1, evaluated at `INT_MIN`: `myStringSetFromInt` succeeds, and
`myStringToInt` on the string it leaves returns the sentinel, whatever the
sentinel is. -/
theorem roundTrip_INT_MIN :
    ∀ E : Int, ∃ t : MyString,
      myStringSetFromInt true (some ⟨none, 0⟩) INT_MIN = some (MYSTRING_SUCCESS, some t)
      ∧ myStringToInt E (some t) = some E := by
  intro E
  refine ⟨⟨some [45, 46, 47, 44, 41, 44, 40, 45, 42, 44, 40], 11⟩, by decide, ?_⟩
  exact myStringToInt_bad_char E ⟨some [45, 46, 47, 44, 41, 44, 40, 45, 42, 44, 40], 11⟩
    [45, 46, 47, 44, 41, 44, 40, 45, 42, 44, 40] 10 40 rfl rfl (by decide) rfl
    (by decide) (by decide)

/-! ## Equality derived from comparison -/

/-- The loop and tail of `myStringCustomCompare` return only `0`, `1` or
`-1`. -/
theorem myStringCustomCompareLoop_range (b1 b2 : List Int) (len1 len2 : Nat)
    (comparator : Option (Int → Int → Int)) :
    ∀ (k i : Nat) (r : Int),
      myStringCustomCompareLoop b1 b2 len1 len2 comparator k i = some r →
      r = 0 ∨ r = 1 ∨ r = -1 := by
  have htail : ∀ (i : Nat) (r : Int),
      (if len1 = len2 then some (0 : Int) else if len1 = i then some (-1) else some 1)
        = some r → r = 0 ∨ r = 1 ∨ r = -1 := by
    intro i r h
    split_ifs at h <;> simp at h <;> omega
  intro k
  induction k with
  | zero =>
    intro i r h
    by_cases hc : i < len1 ∧ i < len2
    · simp [myStringCustomCompareLoop, hc] at h
    · rw [myStringCustomCompareLoop_exit _ _ _ _ _ _ _ hc] at h
      exact htail i r h
  | succ k ih =>
    intro i r h
    by_cases hc : i < len1 ∧ i < len2
    · rw [myStringCustomCompareLoop.eq_def] at h
      simp only [hc, and_self, if_true] at h
      split at h
      · split_ifs at h
        · simp at h; omega
        · simp at h; omega
        · exact ih _ _ h
      · simp at h
    · rw [myStringCustomCompareLoop_exit _ _ _ _ _ _ _ hc] at h
      exact htail i r h

/-- A call of `myStringCustomCompare` on two present objects that returns,
returns the sentinel, `0`, `1` or `-1`. -/
theorem myStringCustomCompare_range (E : Int) (a b : MyString)
    (comparator : Option (Int → Int → Int)) (r : Int)
    (h : myStringCustomCompare E (some a) (some b) comparator = some r) :
    r = E ∨ r = 0 ∨ r = 1 ∨ r = -1 := by
  unfold myStringCustomCompare at h
  simp only at h
  split at h
  · simp at h; exact Or.inl h.symm
  · split at h
    · simp at h; exact Or.inl h.symm
    · exact Or.inr (myStringCustomCompareLoop_range _ _ _ _ _ _ _ _ h)

/-- On two present objects and a present comparator, `myStringCustomEqual`
maps what `myStringCustomCompare` returns. -/
theorem myStringCustomEqual_eq (E : Int) (a b : MyString) (cmp : Int → Int → Int) :
    myStringCustomEqual E (some a) (some b) (some cmp)
      = (myStringCustomCompare E (some a) (some b) (some cmp)).map
          (fun compare => if compare = E then E else if compare ≠ 0 then 0 else 1) := by
  simp only [myStringCustomEqual]
  cases myStringCustomCompare E (some a) (some b) (some cmp) with
  | none => rfl
  | some r =>
    simp only [Option.map_some']
    split_ifs <;> rfl

/-- C11: for present `a`, `b` and a present comparator, with a sentinel that is
none of the results `-1`, `0`, `1` of a comparison, `myStringCustomEqual`
returns `1` exactly when `myStringCustomCompare` returns `0`, `0` exactly when
it returns one of the orderings `1` and `-1`, and `MYSTR_ERROR_CODE` exactly
when it returns `MYSTR_ERROR_CODE`. -/
theorem myStringCustomEqual_iff (E : Int) (hE0 : E ≠ 0) (hE1 : E ≠ 1) (hEm : E ≠ -1)
    (a b : MyString) (cmp : Int → Int → Int) :
    (myStringCustomEqual E (some a) (some b) (some cmp) = some 1
        ↔ myStringCustomCompare E (some a) (some b) (some cmp) = some 0)
    ∧ (myStringCustomEqual E (some a) (some b) (some cmp) = some 0
        ↔ (myStringCustomCompare E (some a) (some b) (some cmp) = some 1
          ∨ myStringCustomCompare E (some a) (some b) (some cmp) = some (-1)))
    ∧ (myStringCustomEqual E (some a) (some b) (some cmp) = some E
        ↔ myStringCustomCompare E (some a) (some b) (some cmp) = some E) := by
  rw [myStringCustomEqual_eq]
  cases hc : myStringCustomCompare E (some a) (some b) (some cmp) with
  | none => simp
  | some r =>
    have hneg : (1 : Int) ≠ -1 := by decide
    rcases myStringCustomCompare_range E a b (some cmp) r hc with h | h | h | h
    · subst h
      simp [hE0, hE1, hEm, Ne.symm hE0, Ne.symm hE1, Ne.symm hEm]
    · subst h
      simp [hE0, hE1, hEm, Ne.symm hE0, Ne.symm hE1, Ne.symm hEm]
    · subst h
      simp [hE0, hE1, hEm, Ne.symm hE0, Ne.symm hE1, Ne.symm hEm]
    · subst h
      simp [hE0, hE1, hEm, Ne.symm hE0, Ne.symm hE1, Ne.symm hEm]

/-- Witness of C11 at the sentinel `-999`, on `"abc"` and `"abd"` with the
default comparator. -/
theorem myStringCustomEqual_iff_witness :
    (myStringCustomEqual (-999) (some (mk [97, 98, 99])) (some (mk [97, 98, 100]))
          (some defaultComparator) = some 1
        ↔ myStringCustomCompare (-999) (some (mk [97, 98, 99])) (some (mk [97, 98, 100]))
          (some defaultComparator) = some 0)
    ∧ (myStringCustomEqual (-999) (some (mk [97, 98, 99])) (some (mk [97, 98, 100]))
          (some defaultComparator) = some 0
        ↔ (myStringCustomCompare (-999) (some (mk [97, 98, 99])) (some (mk [97, 98, 100]))
            (some defaultComparator) = some 1
          ∨ myStringCustomCompare (-999) (some (mk [97, 98, 99])) (some (mk [97, 98, 100]))
            (some defaultComparator) = some (-1)))
    ∧ (myStringCustomEqual (-999) (some (mk [97, 98, 99])) (some (mk [97, 98, 100]))
          (some defaultComparator) = some (-999)
        ↔ myStringCustomCompare (-999) (some (mk [97, 98, 99])) (some (mk [97, 98, 100]))
          (some defaultComparator) = some (-999)) :=
  myStringCustomEqual_iff (-999) (by decide) (by decide) (by decide)
    (mk [97, 98, 99]) (mk [97, 98, 100]) defaultComparator

/-! ## Filtering -/

theorem readAt_append_cons (done rest : List Int) (c : Int) :
    readAt (some (done ++ c :: rest)) done.length = some c := by
  rw [readAt, List.get?_eq_getElem?, List.getElem?_append_right (le_refl _)]
  simp

/-- When the `for` condition fails, the loop of `myStringFilter` is left. -/
theorem myStringFilterLoop_exit (filt : Int → Bool) (src : Option (List Int))
    (length k i j : Nat) (dst : Option (List Int)) (h : ¬ i < length) :
    myStringFilterLoop filt src length k i j dst = some (j, dst) := by
  cases k <;> simp only [myStringFilterLoop, h, if_false]

/-- The loop of `myStringFilter` with `filteredString` allocated, on a string
of fewer than `2 ^ 32` chars: after the chars `done`, with the kept ones
already in `kept`, it appends the chars of `rest` on which `filt` is false. -/
theorem myStringFilterLoop_some (filt : Int → Bool) :
    ∀ (rest done kept junk : List Int) (k len : Nat),
      len = done.length + rest.length → len < 4294967296 → rest.length ≤ k →
      kept.length ≤ done.length → rest.length ≤ junk.length →
      myStringFilterLoop filt (some (done ++ rest)) len k done.length kept.length
          (some (kept ++ junk))
        = some ((kept ++ rest.filter (fun c => !filt c)).length,
            some (kept ++ rest.filter (fun c => !filt c)
              ++ junk.drop (rest.filter (fun c => !filt c)).length)) := by
  intro rest
  induction rest with
  | nil =>
    intro done kept junk k len hlen _ _ _ _
    rw [myStringFilterLoop_exit _ _ _ _ _ _ _ (by simp at hlen; omega)]
    simp
  | cons c rest ih =>
    intro done kept junk k len hlen hsize hk hkd hj
    obtain ⟨k, rfl⟩ : ∃ k2, k = k2 + 1 := ⟨k - 1, by simp at hk; omega⟩
    have hbuf : done ++ c :: rest = (done ++ [c]) ++ rest := by simp
    have hdl : done.length + 1 = (done ++ [c]).length := by simp
    have hcond : done.length < len := by simp at hlen; omega
    have hwi : (done.length + 1) % 4294967296 = done.length + 1 :=
      Nat.mod_eq_of_lt (by simp at hlen; omega)
    have hwj : (kept.length + 1) % 4294967296 = kept.length + 1 :=
      Nat.mod_eq_of_lt (by simp at hlen; omega)
    have hlen2 : len = (done ++ [c]).length + rest.length := by
      simp at hlen ⊢; omega
    simp only [myStringFilterLoop, hcond, if_true, readAt_append_cons, hwi, hwj]
    cases junk with
    | nil => simp at hj
    | cons x junk =>
      have hj2 : rest.length ≤ junk.length := by simpa using hj
      by_cases hc : filt c = false
      · have hset : (kept ++ x :: junk).set kept.length c = (kept ++ [c]) ++ junk := by
          rw [set_append_cons]; simp
        have hkl : kept.length + 1 = (kept ++ [c]).length := by simp
        simp only [hc, if_true, List.length_append, List.length_cons,
          Nat.lt_add_one_iff, Nat.le_add_right, hset]
        rw [hbuf, hdl, hkl, ih (done ++ [c]) (kept ++ [c]) junk k len hlen2 hsize
          (by simp at hk; omega) (by simp; omega) hj2]
        simp [List.filter_cons, hc]
      · have hct : filt c = true := by simpa using hc
        simp only [hct, Bool.true_eq_false, if_false]
        rw [hbuf, hdl, ih (done ++ [c]) kept (x :: junk) k len hlen2 hsize
          (by simp at hk; omega) (by simp; omega) (by simp; omega)]
        simp [List.filter_cons, hct]

/-- The loop of `myStringFilter` with `filteredString` equal to `NULL`, on a
string of fewer than `2 ^ 32` chars: it returns only when `filt` is true on
every char left, and then has written nothing. -/
theorem myStringFilterLoop_none (filt : Int → Bool) :
    ∀ (rest done : List Int) (j k len : Nat) (r : Nat × Option (List Int)),
      len = done.length + rest.length → len < 4294967296 →
      myStringFilterLoop filt (some (done ++ rest)) len k done.length j none = some r →
      r = (j, none) ∧ rest.filter (fun c => !filt c) = [] := by
  intro rest
  induction rest with
  | nil =>
    intro done j k len r hlen _ h
    rw [myStringFilterLoop_exit _ _ _ _ _ _ _ (by simp at hlen; omega)] at h
    exact ⟨(Option.some.inj h).symm, rfl⟩
  | cons c rest ih =>
    intro done j k len r hlen hsize h
    have hbuf : done ++ c :: rest = (done ++ [c]) ++ rest := by simp
    have hdl : done.length + 1 = (done ++ [c]).length := by simp
    have hcond : done.length < len := by simp at hlen; omega
    have hwi : (done.length + 1) % 4294967296 = done.length + 1 :=
      Nat.mod_eq_of_lt (by simp at hlen; omega)
    have hlen2 : len = (done ++ [c]).length + rest.length := by
      simp at hlen ⊢; omega
    cases k with
    | zero => simp [myStringFilterLoop, hcond] at h
    | succ k =>
      simp only [myStringFilterLoop, hcond, if_true, readAt_append_cons, hwi] at h
      by_cases hc : filt c = false
      · simp [hc] at h
      · have hct : filt c = true := by simpa using hc
        simp only [hct, Bool.true_eq_false, if_false] at h
        rw [hbuf, hdl] at h
        obtain ⟨h1, h2⟩ := ih _ _ _ _ _ hlen2 hsize h
        exact ⟨h1, by simp [List.filter_cons, hct, h2]⟩

theorem memcpy_prefix (F junk : List Int) :
    memcpy (List.replicate F.length 0) 0 (some (F ++ junk)) F.length = some F := by
  unfold memcpy
  by_cases h0 : F.length = 0
  · have : F = [] := List.length_eq_zero.mp h0
    subst this
    simp
  · simp [h0]

/-- Every successful call of `myStringFilter` on a string with a present
buffer of `_length` chars, fewer than `2 ^ 32`, leaves the chars on which
`filt` is false, and the call succeeds when its two allocations do. -/
theorem myStringFilter_result (s : MyString) (buf : List Int) (filt : Int → Bool)
    (hbuf : s._string = some buf) (hlen : s._length = buf.length)
    (hsize : s._length < 4294967296) :
    myStringFilter true true (some s) (some filt)
        = some (MYSTRING_SUCCESS, some (mk (buf.filter (fun c => !filt c))))
    ∧ ∀ (m1 m2 : Bool) (t : Option MyString),
        myStringFilter m1 m2 (some s) (some filt) = some (MYSTRING_SUCCESS, t) →
        t = some (mk (buf.filter (fun c => !filt c))) := by
  rw [hlen] at hsize
  have hloop : myStringFilterLoop filt (some buf) buf.length 4294967296 0 0
      (some (List.replicate buf.length 0))
      = some ((buf.filter (fun c => !filt c)).length,
          some (buf.filter (fun c => !filt c)
            ++ (List.replicate buf.length 0).drop (buf.filter (fun c => !filt c)).length)) := by
    have := myStringFilterLoop_some filt buf [] [] (List.replicate buf.length 0)
      4294967296 buf.length (by simp) hsize (by omega) (by simp) (by simp)
    simpa using this
  have htrue : ∀ m2 : Bool, myStringFilter true m2 (some s) (some filt)
      = if m2 then some (MYSTRING_SUCCESS, some (mk (buf.filter (fun c => !filt c))))
        else some (MYSTRING_ERROR,
          some { _string := none, _length := (buf.filter (fun c => !filt c)).length }) := by
    intro m2
    simp only [myStringFilter, hbuf, hlen, malloc, if_true, hloop]
    cases m2
    · simp
    · simp only [if_true, memcpy_prefix]
      rfl
  refine ⟨by simpa using htrue true, ?_⟩
  intro m1 m2 t h
  cases m1
  · simp only [myStringFilter, hbuf, hlen, malloc] at h
    have hfl : (false = true) = False := by simp
    simp only [hfl, if_false] at h
    cases hl : myStringFilterLoop filt (some buf) buf.length 4294967296 0 0 none with
    | none => rw [hl] at h; simp at h
    | some r =>
      have := myStringFilterLoop_none filt buf [] 0 4294967296 buf.length r (by simp) hsize
        (by simpa using hl)
      obtain ⟨hr, hnil⟩ := this
      rw [hl, hr] at h
      cases m2
      · simp at h
      · simp [memcpy] at h
        rw [← h, hnil]
        rfl
  · rw [htrue m2] at h
    cases m2
    · simp at h
    · simp at h
      exact h.symm

/-- C13: for a string `s` with a present buffer (of `_length` chars, fewer
than `2 ^ 32` so that the `unsigned int` index reaches its end) and a
predicate `p`, every successful `myStringFilter (s, p)` leaves `s` holding
exactly the chars of the original on which `p` is false, in their original
order, with length equal to their number; the call succeeds when its
allocations do. -/
theorem myStringFilter_keeps_unfiltered (s : MyString) (buf : List Int) (p : Int → Bool)
    (hbuf : s._string = some buf) (hlen : s._length = buf.length)
    (hsize : s._length < 4294967296) :
    myStringFilter true true (some s) (some p)
        = some (MYSTRING_SUCCESS,
            some { _string := some (buf.filter (fun c => !p c)),
                   _length := (buf.filter (fun c => !p c)).length })
    ∧ ∀ (m1 m2 : Bool) (t : Option MyString),
        myStringFilter m1 m2 (some s) (some p) = some (MYSTRING_SUCCESS, t) →
        t = some { _string := some (buf.filter (fun c => !p c)),
                   _length := (buf.filter (fun c => !p c)).length } :=
  myStringFilter_result s buf p hbuf hlen hsize

/-- Witness of C13: `"abcb"` filtered by the test predicate. -/
theorem myStringFilter_keeps_unfiltered_witness :
    myStringFilter true true (some (mk [97, 98, 99, 98])) (some filter)
      = some (MYSTRING_SUCCESS, some { _string := some [97, 99], _length := 2 }) :=
  (myStringFilter_keeps_unfiltered (mk [97, 98, 99, 98]) [97, 98, 99, 98] filter rfl rfl
    (by decide)).1

/-- C14, as the code behaves: `myStringFilter` on `"abcbfdgbdfsgjh"` with the
predicate that is true exactly on `'b'` and `'g'` yields `"acfddfsjh"`, of
length 9. -/
theorem myStringFilter_test_string :
    myStringFilter true true
        (some (mk [97, 98, 99, 98, 102, 100, 103, 98, 100, 102, 115, 103, 106, 104]))
        (some filter)
      = some (MYSTRING_SUCCESS,
          some { _string := some [97, 99, 102, 100, 100, 102, 115, 106, 104], _length := 9 })
    ∧ ofStr "abcbfdgbdfsgjh" = [97, 98, 99, 98, 102, 100, 103, 98, 100, 102, 115, 103, 106, 104]
    ∧ ofStr "acfddfsjh" = [97, 99, 102, 100, 100, 102, 115, 106, 104] := by
  refine ⟨by decide, by decide, by decide⟩

/-- C14 fails as stated: the string left is not `"acfdfdsjh"`, whose fifth and
sixth chars are exchanged. -/
theorem myStringFilter_test_string_not_claimed :
    ¬ ∃ m1 m2 : Bool,
      myStringFilter m1 m2 (some (mk (ofStr "abcbfdgbdfsgjh"))) (some filter)
        = some (MYSTRING_SUCCESS, some (mk (ofStr "acfdfdsjh"))) := by
  decide

/-- C15: `myStringFilter` returns `MYSTRING_ERROR` and leaves the string as it
was when the string is absent, when its buffer is absent, and when the
predicate is absent. -/
theorem myStringFilter_absent (m1 m2 : Bool) (len : Nat) (str : Option MyString)
    (filt : Option (Int → Bool)) :
    myStringFilter m1 m2 none filt = some (MYSTRING_ERROR, none)
    ∧ myStringFilter m1 m2 (some { _string := none, _length := len }) filt
        = some (MYSTRING_ERROR, some { _string := none, _length := len })
    ∧ myStringFilter m1 m2 (myStringAlloc true) filt = some (MYSTRING_ERROR, myStringAlloc true)
    ∧ myStringFilter m1 m2 str none = some (MYSTRING_ERROR, str) := by
  refine ⟨rfl, rfl, rfl, ?_⟩
  cases str with
  | none => rfl
  | some s =>
    obtain ⟨b, l⟩ := s
    cases b <;> rfl

/-! ## Copies: `memcpy` into a block -/

/-- A `memcpy` of the first chars `b` of the source over a part `hole` of the
destination, of the same length, replaces that part by `b`. -/
theorem memcpy_over (pre hole post b extra : List Int) (h : hole.length = b.length) :
    memcpy (pre ++ hole ++ post) pre.length (some (b ++ extra)) b.length
      = some (pre ++ b ++ post) := by
  unfold memcpy
  by_cases h0 : b.length = 0
  · have hb : b = [] := List.length_eq_zero.mp h0
    have hh : hole = [] := List.length_eq_zero.mp (by omega)
    subst hb hh
    simp
  · have hcond : b.length ≤ (b ++ extra).length
        ∧ pre.length + b.length ≤ (pre ++ hole ++ post).length := by
      simp; omega
    have hdrop : (pre ++ hole ++ post).drop (pre.length + b.length) = post := by
      have : pre.length + b.length = (pre ++ hole).length := by simp [h]
      rw [this, List.drop_left]
    have htake : (pre ++ hole ++ post).take pre.length = pre := by
      rw [List.append_assoc, List.take_left]
    rw [if_neg h0]
    simp only [hcond, and_self, if_true, hdrop, htake, List.take_left]

/-- A `memcpy` of the content of a well-formed string over a part of the
destination of the same length. -/
theorem memcpy_wellFormed (s : MyString) (hs : WellFormed s) (pre hole post : List Int)
    (h : hole.length = s._length) :
    memcpy (pre ++ hole ++ post) pre.length s._string s._length
      = some (pre ++ bytes s ++ post) := by
  obtain ⟨str, len⟩ := s
  cases str with
  | none =>
    have hl : len = 0 := by simpa [WellFormed, bytes] using hs
    subst hl
    have hh : hole = [] := List.length_eq_zero.mp h
    subst hh
    simp [memcpy, bytes]
  | some b =>
    have hl : len = b.length := by simpa [WellFormed, bytes] using hs
    subst hl
    have := memcpy_over pre hole post b [] h
    simpa [bytes] using this

theorem memcpy_length (dst : List Int) (off : Nat) (src : Option (List Int)) (n : Nat)
    (r : List Int) (h : memcpy dst off src n = some r) : r.length = dst.length := by
  unfold memcpy at h
  split_ifs at h with h0
  · simp at h; rw [← h]
  · cases src with
    | none => simp at h
    | some b =>
      simp only at h
      split_ifs at h with hc
      simp at h
      rw [← h]
      simp
      omega

/-! ## `myStringSetFromMyString` -/

/-- On a well-formed source, `myStringSetFromMyString` succeeds when its
allocation does, and every successful call leaves the chars and the length of
the source in `*str`. -/
theorem myStringSetFromMyString_result (dst src : MyString) (hs : WellFormed src) :
    myStringSetFromMyString true (some dst) (some src)
        = some (MYSTRING_SUCCESS, some { _string := some (bytes src), _length := src._length })
    ∧ ∀ (m : Bool) (t : Option MyString),
        myStringSetFromMyString m (some dst) (some src) = some (MYSTRING_SUCCESS, t) →
        t = some { _string := some (bytes src), _length := src._length } := by
  have hcopy := memcpy_wellFormed src hs [] (List.replicate src._length 0) [] (by simp)
  simp only [List.nil_append, List.append_nil, List.length_nil] at hcopy
  have htrue : myStringSetFromMyString true (some dst) (some src)
      = some (MYSTRING_SUCCESS, some { _string := some (bytes src), _length := src._length }) := by
    simp only [myStringSetFromMyString, malloc, if_true, hcopy]
  refine ⟨htrue, ?_⟩
  intro m t h
  cases m
  · simp [myStringSetFromMyString, malloc] at h
  · rw [htrue] at h
    simp at h
    exact h.symm

/-- The call of the test, on two objects: `"def"` set from `"abc"` holds
`"abc"`. -/
theorem myStringSetFromMyString_test :
    myStringSetFromMyString true (some (mk [100, 101, 102])) (some (mk [97, 98, 99]))
      = some (MYSTRING_SUCCESS, some { _string := some [97, 98, 99], _length := 3 }) :=
  (myStringSetFromMyString_result (mk [100, 101, 102]) (mk [97, 98, 99]) (by decide)).1

/-- Called with `str` and `other` one object, `myStringSetFromMyString` with
its allocation succeeding returns `MYSTRING_SUCCESS` and leaves the object
with the chars of the block `malloc` returned, whatever they are: the chars
the string held went with the buffer that `freeString` released. -/
theorem myStringSetFromMyStringSelf_result (s : MyString) (g : List Int)
    (hg : g.length = s._length) :
    myStringSetFromMyStringSelf (some g) (some s)
      = some (MYSTRING_SUCCESS, some { _string := some g, _length := s._length }) := by
  have hcopy := memcpy_over [] g [] g [] rfl
  simp only [List.nil_append, List.append_nil, List.length_nil] at hcopy
  simp only [myStringSetFromMyStringSelf, ← hg, hcopy]

/-- C19, evaluated on the call `myStringSetFromMyString (s, s)`, which the
claim does not exclude: `freeString (str)` releases the buffer of `s`, which
is the buffer of the source as well, before anything is copied; with the
allocation succeeding and returning a block that holds the chars `g`, the
call returns `MYSTRING_SUCCESS` and `s` holds `g`, not the chars it held
before. On two distinct objects the copy is right
(`myStringSetFromMyString_result`). -/
theorem myStringSetFromMyString_self_loses_content (s : MyString) (g : List Int)
    (hg : g.length = s._length) :
    myStringSetFromMyStringSelf (some g) (some s)
      = some (MYSTRING_SUCCESS, some { _string := some g, _length := s._length }) :=
  myStringSetFromMyStringSelf_result s g hg

/-- Witness of C19: `"abc"` set from itself, with `malloc` returning a block
of three zero chars, succeeds and holds three zero chars, not `"abc"`. -/
theorem myStringSetFromMyString_self_loses_content_witness :
    myStringSetFromMyStringSelf (some [0, 0, 0]) (some (mk [97, 98, 99]))
        = some (MYSTRING_SUCCESS, some { _string := some [0, 0, 0], _length := 3 })
    ∧ myStringSetFromMyStringSelf (some [0, 0, 0]) (some (mk [97, 98, 99]))
        ≠ some (MYSTRING_SUCCESS, some (mk [97, 98, 99])) :=
  ⟨myStringSetFromMyString_self_loses_content (mk [97, 98, 99]) [0, 0, 0] rfl, by decide⟩

/-! ## Concatenation -/

/-- With its allocation succeeding, `myStringToCString` on a well-formed
string returns its chars followed by the terminator. -/
theorem myStringToCString_wellFormed (s : MyString) (hs : WellFormed s) :
    myStringToCString true (some s) = some (some (bytes s ++ [0])) := by
  have hcopy := memcpy_wellFormed s hs [] (List.replicate s._length 0) [0] (by simp)
  have hrep : List.replicate (s._length + 1) (0 : Int) = [] ++ List.replicate s._length 0 ++ [0] := by
    simp [List.replicate_succ']
  have hl : s._length = (bytes s).length := hs
  simp only [myStringToCString, malloc, if_true, hrep]
  simp only [List.length_nil] at hcopy
  rw [hcopy]
  simp only [List.nil_append]
  rw [if_pos (by simp [← hl])]
  nth_rewrite 1 [hl]
  rw [set_append_cons]

/-- On well-formed strings, `myStringCat` succeeds when its allocations do, and
every successful call leaves the chars of `dest` followed by those of `src`. -/
theorem myStringCat_result (dst src : MyString) (hd : WellFormed dst) (hs : WellFormed src) :
    myStringCat true true (some dst) (some src)
        = some (MYSTRING_SUCCESS,
            some { _string := some (bytes dst ++ bytes src),
                   _length := dst._length + src._length })
    ∧ ∀ (m1 m2 : Bool) (t : Option MyString),
        myStringCat m1 m2 (some dst) (some src) = some (MYSTRING_SUCCESS, t) →
        t = some { _string := some (bytes dst ++ bytes src),
                   _length := dst._length + src._length } := by
  have hdl : dst._length = (bytes dst).length := hd
  have hrep : List.replicate (dst._length + src._length) (0 : Int)
      = List.replicate dst._length 0 ++ List.replicate src._length 0 :=
    List.replicate_add _ _ _
  have h1 : memcpy (List.replicate dst._length 0 ++ List.replicate src._length 0) 0
      (some (bytes dst ++ [0])) dst._length
      = some (bytes dst ++ List.replicate src._length 0) := by
    rw [hdl]
    have := memcpy_over [] (List.replicate (bytes dst).length 0)
      (List.replicate src._length 0) (bytes dst) [0] (by simp)
    simp only [List.length_nil, List.nil_append] at this
    exact this
  have h2 : memcpy (bytes dst ++ List.replicate src._length 0) dst._length
      src._string src._length = some (bytes dst ++ bytes src) := by
    rw [hdl]
    have := memcpy_wellFormed src hs (bytes dst) (List.replicate src._length 0) [] (by simp)
    simp only [List.append_nil] at this
    exact this
  have htrue : ∀ m2 : Bool, myStringCat true m2 (some dst) (some src)
      = if m2 then some (MYSTRING_SUCCESS,
            some { _string := some (bytes dst ++ bytes src),
                   _length := dst._length + src._length })
        else some (MYSTRING_ERROR, some { _string := none, _length := dst._length }) := by
    intro m2
    simp only [myStringCat, myStringToCString_wellFormed dst hd, malloc]
    cases m2
    · simp
    · simp only [if_true, hrep, h1, h2]
  refine ⟨by simpa using htrue true, ?_⟩
  intro m1 m2 t h
  cases m1
  · simp [myStringCat, myStringToCString, malloc] at h
  · rw [htrue m2] at h
    cases m2
    · simp at h
    · simp at h
      exact h.symm

/-- C16: for present strings `dst` and `src` (distinct objects, each with
`_length` equal to the number of chars its buffer holds), every successful
`myStringCat (dst, src)` leaves `dst` holding its old chars followed by the
chars of `src`, with length `old_len (dst) + len (src)`; the call succeeds when
its allocations do. Nothing is written through `src`, a pointer to const. -/
theorem myStringCat_appends (dst src : MyString) (hd : WellFormed dst) (hs : WellFormed src) :
    myStringCat true true (some dst) (some src)
        = some (MYSTRING_SUCCESS,
            some { _string := some (bytes dst ++ bytes src),
                   _length := dst._length + src._length })
    ∧ ∀ (m1 m2 : Bool) (t : Option MyString),
        myStringCat m1 m2 (some dst) (some src) = some (MYSTRING_SUCCESS, t) →
        t = some { _string := some (bytes dst ++ bytes src),
                   _length := dst._length + src._length } :=
  myStringCat_result dst src hd hs

/-- Witness of C16: `"abc"` appended with `"def"` gives `"abcdef"`, of length
6. -/
theorem myStringCat_appends_witness :
    myStringCat true true (some (mk [97, 98, 99])) (some (mk [100, 101, 102]))
      = some (MYSTRING_SUCCESS,
          some { _string := some [97, 98, 99, 100, 101, 102], _length := 6 }) :=
  (myStringCat_appends (mk [97, 98, 99]) (mk [100, 101, 102]) (by decide) (by decide)).1

/-- On well-formed `str1` and `str2`, `myStringCatTo` succeeds when its
allocation does, and every successful call leaves their concatenation in
`*result`. -/
theorem myStringCatTo_result (a b result : MyString) (ha : WellFormed a) (hb : WellFormed b) :
    myStringCatTo true (some a) (some b) (some result)
        = some (MYSTRING_SUCCESS,
            some { _string := some (bytes a ++ bytes b), _length := a._length + b._length })
    ∧ ∀ (m : Bool) (t : Option MyString),
        myStringCatTo m (some a) (some b) (some result) = some (MYSTRING_SUCCESS, t) →
        t = some { _string := some (bytes a ++ bytes b),
                   _length := a._length + b._length } := by
  have hal : a._length = (bytes a).length := ha
  have hrep : List.replicate (a._length + b._length) (0 : Int)
      = List.replicate a._length 0 ++ List.replicate b._length 0 :=
    List.replicate_add _ _ _
  have h1 : memcpy (List.replicate a._length 0 ++ List.replicate b._length 0) 0
      a._string a._length = some (bytes a ++ List.replicate b._length 0) := by
    have := memcpy_wellFormed a ha [] (List.replicate a._length 0)
      (List.replicate b._length 0) (by simp)
    simp only [List.length_nil, List.nil_append] at this
    exact this
  have h2 : memcpy (bytes a ++ List.replicate b._length 0) a._length
      b._string b._length = some (bytes a ++ bytes b) := by
    rw [hal]
    have := memcpy_wellFormed b hb (bytes a) (List.replicate b._length 0) [] (by simp)
    simp only [List.append_nil] at this
    exact this
  have htrue : myStringCatTo true (some a) (some b) (some result)
      = some (MYSTRING_SUCCESS,
          some { _string := some (bytes a ++ bytes b), _length := a._length + b._length }) := by
    simp only [myStringCatTo, malloc, if_true, hrep, h1, h2]
  refine ⟨htrue, ?_⟩
  intro m t h
  cases m
  · simp [myStringCatTo, malloc] at h
  · rw [htrue] at h
    simp at h
    exact h.symm

/-- C17: for present strings `a`, `b` (each with `_length` equal to the number
of chars its buffer holds) and a present `result` distinct from both, every
successful `myStringCatTo (a, b, result)` leaves `result` holding the chars of
`a` followed by those of `b`, with length `len (a) + len (b)`, whatever
`result` held before; the call succeeds when its allocation does. Nothing is
written through `a` and `b`, pointers to const. -/
theorem myStringCatTo_concatenates (a b result : MyString)
    (ha : WellFormed a) (hb : WellFormed b) :
    myStringCatTo true (some a) (some b) (some result)
        = some (MYSTRING_SUCCESS,
            some { _string := some (bytes a ++ bytes b), _length := a._length + b._length })
    ∧ ∀ (m : Bool) (t : Option MyString),
        myStringCatTo m (some a) (some b) (some result) = some (MYSTRING_SUCCESS, t) →
        t = some { _string := some (bytes a ++ bytes b),
                   _length := a._length + b._length } :=
  myStringCatTo_result a b result ha hb

/-- Witness of C17: `"abc"` and `"def"` into a result that held `"xy"`. -/
theorem myStringCatTo_concatenates_witness :
    myStringCatTo true (some (mk [97, 98, 99])) (some (mk [100, 101, 102]))
        (some (mk [120, 121]))
      = some (MYSTRING_SUCCESS,
          some { _string := some [97, 98, 99, 100, 101, 102], _length := 6 }) :=
  (myStringCatTo_concatenates (mk [97, 98, 99]) (mk [100, 101, 102]) (mk [120, 121])
    (by decide) (by decide)).1

/-! ## C strings -/

theorem get?_append_cons (done rest : List Int) (c : Int) :
    (done ++ c :: rest).get? done.length = some c := by
  rw [List.get?_eq_getElem?, List.getElem?_append_right (le_refl _)]
  simp

/-- The loop of `getLength` walks over the chars that are not the terminator
and stops at the first terminator. -/
theorem getLengthLoop_text (rest : List Int) :
    ∀ (x done : List Int) (k : Nat), x.length < k → (∀ c ∈ x, c ≠ 0) →
      getLengthLoop (done ++ (x ++ 0 :: rest)) k done.length
        = some (done.length + x.length) := by
  intro x
  induction x with
  | nil =>
    intro done k hk _
    obtain ⟨k, rfl⟩ : ∃ k2, k = k2 + 1 := ⟨k - 1, by simp at hk; omega⟩
    have hget : (done ++ ([] ++ 0 :: rest)).get? done.length = some 0 :=
      get?_append_cons done rest 0
    simp only [getLengthLoop, hget]
    simp
  | cons c x ih =>
    intro done k hk hx
    obtain ⟨k, rfl⟩ : ∃ k2, k = k2 + 1 := ⟨k - 1, by simp at hk; omega⟩
    have hc : c ≠ 0 := hx c (by simp)
    have hget : (done ++ (c :: x ++ 0 :: rest)).get? done.length = some c :=
      get?_append_cons done (x ++ 0 :: rest) c
    have hbuf : done ++ (c :: x ++ 0 :: rest) = (done ++ [c]) ++ (x ++ 0 :: rest) := by simp
    have hdl : done.length + 1 = (done ++ [c]).length := by simp
    simp only [getLengthLoop, hget, ne_eq, hc, not_false_eq_true, if_true]
    rw [hbuf, hdl, ih (done ++ [c]) k (by simp at hk; omega) (fun d hd => hx d (by simp [hd]))]
    rw [← hdl, List.length_cons]
    congr 1
    omega

theorem getLength_text (x rest : List Int) (hx : ∀ c ∈ x, c ≠ 0) :
    getLength (x ++ 0 :: rest) = some x.length := by
  have := getLengthLoop_text rest x [] (x ++ 0 :: rest).length (by simp) hx
  simpa [getLength] using this

/-- Setting from a C string, with the allocation succeeding, leaves the chars
before the terminator. -/
theorem myStringSetFromCString_text (s : MyString) (x rest : List Int)
    (hx : ∀ c ∈ x, c ≠ 0) :
    myStringSetFromCString true (some s) (some (x ++ 0 :: rest))
      = some (MYSTRING_SUCCESS, some (mk x)) := by
  simp only [myStringSetFromCString, getLength_text x rest hx, malloc, if_true,
    memcpy_prefix]
  rfl

/-- C18: for a char sequence `x` without a `NUL`, setting a string from the
text `x` followed by its terminator with `myStringSetFromCString` and then
calling `myStringToCString` (allocations succeeding) returns `x` followed by
a terminator, and `myStringLen` is the length of `x`. -/
theorem cString_round_trip (s : MyString) (x rest : List Int) (hx : ∀ c ∈ x, c ≠ 0) :
    ∃ t : MyString,
      myStringSetFromCString true (some s) (some (x ++ 0 :: rest))
        = some (MYSTRING_SUCCESS, some t)
      ∧ myStringToCString true (some t) = some (some (x ++ [0]))
      ∧ myStringLen (some t) = x.length := by
  refine ⟨mk x, myStringSetFromCString_text s x rest hx, ?_, rfl⟩
  have := myStringToCString_wellFormed (mk x) rfl
  simpa [bytes, mk] using this

/-- Witness of C18: the text `"abc"`. -/
theorem cString_round_trip_witness :
    ∃ t : MyString,
      myStringSetFromCString true (some ⟨none, 0⟩) (some ([97, 98, 99] ++ 0 :: []))
        = some (MYSTRING_SUCCESS, some t)
      ∧ myStringToCString true (some t) = some (some ([97, 98, 99] ++ [0]))
      ∧ myStringLen (some t) = [97, 98, 99].length :=
  cString_round_trip ⟨none, 0⟩ [97, 98, 99] [] (by decide)

/-! ## The length invariant -/

theorem setFromIntLoop_length (length : Nat) :
    ∀ (k i : Nat) (n : Int) (buf r : List Int),
      setFromIntLoop length k i n buf = some r → r.length = buf.length := by
  intro k
  induction k with
  | zero =>
    intro i n buf r h
    simp [setFromIntLoop] at h
    rw [h]
  | succ k ih =>
    intro i n buf r h
    simp only [setFromIntLoop] at h
    split_ifs at h
    have := ih _ _ _ _ h
    simpa using this

theorem wellFormed_of_length (b : List Int) (len : Nat) (h : b.length = len) :
    WellFormed { _string := some b, _length := len } := by
  simp [WellFormed, bytes, h]

theorem myStringSetFromInt_wellFormed (m : Bool) (str : Option MyString) (n : Int)
    (t : MyString) (h : myStringSetFromInt m str n = some (MYSTRING_SUCCESS, some t)) :
    WellFormed t := by
  cases str with
  | none => simp [myStringSetFromInt] at h
  | some s =>
    cases m
    · simp only [myStringSetFromInt, malloc, Bool.false_eq_true, if_false] at h
      split_ifs at h
      simp at h
    · simp only [myStringSetFromInt, malloc, if_true] at h
      split_ifs at h
      · cases hl : setFromIntLoop (getNumOfDigits n + 1) (getNumOfDigits n) 0
            (wrapInt (n * -1)) ((List.replicate (getNumOfDigits n + 1) 0).set 0 45) with
        | none => rw [hl] at h; simp at h
        | some b =>
          rw [hl] at h
          simp only [Option.some.injEq, Prod.mk.injEq, true_and] at h
          rw [← h]
          apply wellFormed_of_length
          rw [setFromIntLoop_length _ _ _ _ _ _ hl]
          simp
      · cases hl : setFromIntLoop (getNumOfDigits n) (getNumOfDigits n) 0 n
            (List.replicate (getNumOfDigits n) 0) with
        | none => rw [hl] at h; simp at h
        | some b =>
          rw [hl] at h
          simp only [Option.some.injEq, Prod.mk.injEq, true_and] at h
          rw [← h]
          apply wellFormed_of_length
          rw [setFromIntLoop_length _ _ _ _ _ _ hl]
          simp

theorem myStringSetFromMyString_wellFormed (m : Bool) (str other : Option MyString)
    (t : MyString)
    (h : myStringSetFromMyString m str other = some (MYSTRING_SUCCESS, some t)) :
    WellFormed t := by
  cases str with
  | none => simp [myStringSetFromMyString] at h
  | some s =>
    cases other with
    | none => simp [myStringSetFromMyString] at h
    | some o =>
      cases m
      · simp [myStringSetFromMyString, malloc] at h
      · simp only [myStringSetFromMyString, malloc, if_true] at h
        cases hc : memcpy (List.replicate o._length 0) 0 o._string o._length with
        | none => rw [hc] at h; simp at h
        | some b =>
          rw [hc] at h
          simp only [Option.some.injEq, Prod.mk.injEq, true_and] at h
          rw [← h]
          apply wellFormed_of_length
          rw [memcpy_length _ _ _ _ _ hc]
          simp

theorem myStringSetFromCString_wellFormed (m : Bool) (str : Option MyString)
    (cString : Option (List Int)) (t : MyString)
    (h : myStringSetFromCString m str cString = some (MYSTRING_SUCCESS, some t)) :
    WellFormed t := by
  cases str with
  | none => simp [myStringSetFromCString] at h
  | some s =>
    cases cString with
    | none => simp [myStringSetFromCString] at h
    | some cs =>
      simp only [myStringSetFromCString] at h
      cases hg : getLength cs with
      | none => rw [hg] at h; simp at h
      | some len =>
        rw [hg] at h
        cases m
        · simp [malloc] at h
        · simp only [malloc, if_true] at h
          cases hc : memcpy (List.replicate len 0) 0 (some cs) len with
          | none => rw [hc] at h; simp at h
          | some b =>
            rw [hc] at h
            simp only [Option.some.injEq, Prod.mk.injEq, true_and] at h
            rw [← h]
            apply wellFormed_of_length
            rw [memcpy_length _ _ _ _ _ hc]
            simp

theorem myStringFilter_wellFormed (m1 m2 : Bool) (str : Option MyString)
    (filt : Option (Int → Bool)) (t : MyString)
    (h : myStringFilter m1 m2 str filt = some (MYSTRING_SUCCESS, some t)) :
    WellFormed t := by
  cases str with
  | none => simp [myStringFilter] at h
  | some s =>
    obtain ⟨sb, sl⟩ := s
    cases sb with
    | none => simp [myStringFilter] at h
    | some b0 =>
      cases filt with
      | none => simp [myStringFilter] at h
      | some f =>
        simp only [myStringFilter] at h
        cases hl : myStringFilterLoop f (some b0) sl 4294967296 0 0 (malloc m1 sl) with
        | none => rw [hl] at h; simp at h
        | some r =>
          obtain ⟨j, fs⟩ := r
          rw [hl] at h
          cases m2
          · simp [malloc] at h
          · simp only [malloc, if_true] at h
            cases hc : memcpy (List.replicate j 0) 0 fs j with
            | none => rw [hc] at h; simp at h
            | some b =>
              rw [hc] at h
              simp only [Option.some.injEq, Prod.mk.injEq, true_and] at h
              rw [← h]
              apply wellFormed_of_length
              rw [memcpy_length _ _ _ _ _ hc]
              simp

theorem myStringCat_wellFormed (m1 m2 : Bool) (dest src : Option MyString) (t : MyString)
    (h : myStringCat m1 m2 dest src = some (MYSTRING_SUCCESS, some t)) :
    WellFormed t := by
  cases dest with
  | none => simp [myStringCat] at h
  | some d =>
    cases src with
    | none => simp [myStringCat] at h
    | some s =>
      simp only [myStringCat] at h
      cases ht : myStringToCString m1 (some d) with
      | none => rw [ht] at h; simp at h
      | some temp =>
        rw [ht] at h
        cases m2
        · simp [malloc] at h
        · simp only [malloc, if_true] at h
          cases hc1 : memcpy (List.replicate (d._length + s._length) 0) 0 temp d._length with
          | none => rw [hc1] at h; simp at h
          | some b2 =>
            rw [hc1] at h
            simp only at h
            cases hc2 : memcpy b2 d._length s._string s._length with
            | none => rw [hc2] at h; simp at h
            | some b3 =>
              rw [hc2] at h
              simp only [Option.some.injEq, Prod.mk.injEq, true_and] at h
              rw [← h]
              apply wellFormed_of_length
              rw [memcpy_length _ _ _ _ _ hc2, memcpy_length _ _ _ _ _ hc1]
              simp

theorem myStringCatTo_wellFormed (m : Bool) (str1 str2 result : Option MyString)
    (t : MyString)
    (h : myStringCatTo m str1 str2 result = some (MYSTRING_SUCCESS, some t)) :
    WellFormed t := by
  cases str1 with
  | none => simp [myStringCatTo] at h
  | some s1 =>
    cases str2 with
    | none => simp [myStringCatTo] at h
    | some s2 =>
      cases result with
      | none => simp [myStringCatTo] at h
      | some r =>
        cases m
        · simp [myStringCatTo, malloc] at h
        · simp only [myStringCatTo, malloc, if_true] at h
          cases hc1 : memcpy (List.replicate (s1._length + s2._length) 0) 0
              s1._string s1._length with
          | none => rw [hc1] at h; simp at h
          | some b2 =>
            rw [hc1] at h
            simp only at h
            cases hc2 : memcpy b2 s1._length s2._string s2._length with
            | none => rw [hc2] at h; simp at h
            | some b3 =>
              rw [hc2] at h
              simp only [Option.some.injEq, Prod.mk.injEq, true_and] at h
              rw [← h]
              apply wellFormed_of_length
              rw [memcpy_length _ _ _ _ _ hc2, memcpy_length _ _ _ _ _ hc1]
              simp

/-- C20: after every successful `myStringAlloc`, `myStringSetFromMyString`,
`myStringSetFromCString`, `myStringSetFromInt`, `myStringFilter`,
`myStringCat` and `myStringCatTo`, whatever the arguments and the outcome of
the allocations, the stored `_length` of the string created or written equals
the number of chars its buffer holds (none for an absent buffer). -/
theorem length_invariant (t : MyString) :
    (∀ m, myStringAlloc m = some t → WellFormed t)
    ∧ (∀ m str other,
        myStringSetFromMyString m str other = some (MYSTRING_SUCCESS, some t) → WellFormed t)
    ∧ (∀ m str cString,
        myStringSetFromCString m str cString = some (MYSTRING_SUCCESS, some t) → WellFormed t)
    ∧ (∀ m str n,
        myStringSetFromInt m str n = some (MYSTRING_SUCCESS, some t) → WellFormed t)
    ∧ (∀ m1 m2 str filt,
        myStringFilter m1 m2 str filt = some (MYSTRING_SUCCESS, some t) → WellFormed t)
    ∧ (∀ m1 m2 dest src,
        myStringCat m1 m2 dest src = some (MYSTRING_SUCCESS, some t) → WellFormed t)
    ∧ (∀ m str1 str2 result,
        myStringCatTo m str1 str2 result = some (MYSTRING_SUCCESS, some t) → WellFormed t) := by
  refine ⟨?_, fun m str other h => myStringSetFromMyString_wellFormed m str other t h,
    fun m str cs h => myStringSetFromCString_wellFormed m str cs t h,
    fun m str n h => myStringSetFromInt_wellFormed m str n t h,
    fun m1 m2 str filt h => myStringFilter_wellFormed m1 m2 str filt t h,
    fun m1 m2 dest src h => myStringCat_wellFormed m1 m2 dest src t h,
    fun m str1 str2 result h => myStringCatTo_wellFormed m str1 str2 result t h⟩
  intro m h
  cases m
  · simp [myStringAlloc] at h
  · simp only [myStringAlloc, if_true, Option.some.injEq] at h
    rw [← h]
    rfl

/-- Witness of C20: the invariant after `myStringSetFromInt (str, -1385)` and
after `myStringCat` of `"abc"` and `"def"`. -/
theorem length_invariant_witness :
    WellFormed { _string := some [45, 49, 51, 56, 53], _length := 5 }
    ∧ WellFormed { _string := some [97, 98, 99, 100, 101, 102], _length := 6 } :=
  ⟨(length_invariant ⟨some [45, 49, 51, 56, 53], 5⟩).2.2.2.1 true (some ⟨none, 0⟩) (-1385)
      (by decide),
   (length_invariant ⟨some [97, 98, 99, 100, 101, 102], 6⟩).2.2.2.2.2.1 true true
      (some (mk [97, 98, 99])) (some (mk [100, 101, 102])) (by decide)⟩

/-! ## The default ordering is the lexicographic one -/

theorem lexCmp_range : ∀ (a b : List Int), lexCmp a b = 0 ∨ lexCmp a b = 1 ∨ lexCmp a b = -1
  | [], [] => by simp [lexCmp]
  | [], _ :: _ => by simp [lexCmp]
  | _ :: _, [] => by simp [lexCmp]
  | x :: xs, y :: ys => by
    simp only [lexCmp]
    split_ifs
    · simp
    · simp
    · exact lexCmp_range xs ys

theorem lexCmp_swap : ∀ (a b : List Int), lexCmp b a = - lexCmp a b
  | [], [] => by simp [lexCmp]
  | [], _ :: _ => by simp [lexCmp]
  | _ :: _, [] => by simp [lexCmp]
  | x :: xs, y :: ys => by
    simp only [lexCmp]
    split_ifs <;> first | omega | exact lexCmp_swap xs ys

theorem lexCmp_trans : ∀ (a b c : List Int),
    lexCmp a b ≤ 0 → lexCmp b c ≤ 0 → lexCmp a c ≤ 0
  | [], _, [] => by simp [lexCmp]
  | [], _, _ :: _ => by simp [lexCmp]
  | _ :: _, [], _ => by simp [lexCmp]
  | _ :: _, _ :: _, [] => by simp [lexCmp]
  | x :: xs, y :: ys, z :: zs => by
    simp only [lexCmp]
    intro h1 h2
    split_ifs at h1 h2 ⊢ <;> first | omega | exact lexCmp_trans xs ys zs h1 h2

/-- At the end of the shorter buffer, the tail of `myStringCustomCompare` is
the lexicographic comparison of what is left of the two strings. -/
theorem myStringCustomCompare_tail (b1 b2 : List Int) (i : Nat)
    (hi : i = min b1.length b2.length) :
    (if b1.length = b2.length then some (0 : Int)
      else if b1.length = i then some (-1)
      else some 1) = some (lexCmp (b1.drop i) (b2.drop i)) := by
  by_cases heq : b1.length = b2.length
  · have h1 : b1.drop i = [] := List.drop_eq_nil_of_le (by omega)
    have h2 : b2.drop i = [] := List.drop_eq_nil_of_le (by omega)
    rw [if_pos heq, h1, h2]
    rfl
  · by_cases hlt : b1.length = i
    · have h1 : b1.drop i = [] := List.drop_eq_nil_of_le (by omega)
      have h2 : i < b2.length := by omega
      rw [if_neg heq, if_pos hlt, h1, List.drop_eq_getElem_cons h2]
      rfl
    · have h2 : b2.drop i = [] := List.drop_eq_nil_of_le (by omega)
      have h1 : i < b1.length := by omega
      rw [if_neg heq, if_neg hlt, h2, List.drop_eq_getElem_cons h1]
      rfl

/-- On buffers that hold `len1` and `len2` chars, the shorter of fewer than
`2 ^ 32`, the loop and tail of `myStringCustomCompare` with the default
comparator compute the lexicographic comparison of what is left of the two
strings. -/
theorem myStringCustomCompareLoop_default (b1 b2 : List Int)
    (hm : min b1.length b2.length < 4294967296) :
    ∀ (k i : Nat), i ≤ min b1.length b2.length → min b1.length b2.length - i ≤ k →
      myStringCustomCompareLoop b1 b2 b1.length b2.length (some defaultComparator) k i
        = some (lexCmp (b1.drop i) (b2.drop i)) := by
  intro k
  induction k with
  | zero =>
    intro i hi hk
    rw [myStringCustomCompareLoop_exit _ _ _ _ _ _ _ (by omega)]
    exact myStringCustomCompare_tail b1 b2 i (by omega)
  | succ k ih =>
    intro i hi hk
    by_cases hc : i < min b1.length b2.length
    · have h1 : i < b1.length := by omega
      have h2 : i < b2.length := by omega
      rw [myStringCustomCompareLoop_step b1 b2 defaultComparator k i h1 h2 (by omega),
        ih (i + 1) (by omega) (by omega),
        List.drop_eq_getElem_cons h1, List.drop_eq_getElem_cons h2,
        List.getD_eq_getElem b1 0 h1, List.getD_eq_getElem b2 0 h2]
      simp only [lexCmp, defaultComparator]
      split_ifs <;> first | rfl | omega
    · rw [myStringCustomCompareLoop_exit _ _ _ _ _ _ _ (by omega)]
      exact myStringCustomCompare_tail b1 b2 i (by omega)

/-- On two strings with present buffers of `_length` chars, the shorter of
fewer than `2 ^ 32`, `myStringCompare` returns the lexicographic comparison of
their chars. -/
theorem myStringCompare_eq_lexCmp (E : Int) (a b : MyString)
    (ha : a._string ≠ none ∧ WellFormed a) (hb : b._string ≠ none ∧ WellFormed b)
    (hmin : min a._length b._length < 4294967296) :
    myStringCompare E (some a) (some b) = some (lexCmp (bytes a) (bytes b)) := by
  obtain ⟨sa, la⟩ := a
  obtain ⟨sb, lb⟩ := b
  cases sa with
  | none => exact absurd rfl ha.1
  | some b1 =>
    cases sb with
    | none => exact absurd rfl hb.1
    | some b2 =>
      have hla : la = b1.length := by simpa [WellFormed, bytes] using ha.2
      have hlb : lb = b2.length := by simpa [WellFormed, bytes] using hb.2
      subst hla hlb
      simp only [myStringCompare, myStringCustomCompare, bytes]
      have hm : min b1.length b2.length < 4294967296 := by simpa using hmin
      rw [myStringCustomCompareLoop_default b1 b2 hm _ 0 (by omega) (by omega)]
      simp

/-! ## Sorting -/

theorem comparLe_iff {α : Type} (compar : α → α → Option Int) (x y : α) :
    comparLe compar x y ↔ ∃ r, compar x y = some r ∧ r ≤ 0 := by
  unfold comparLe
  cases compar x y <;> simp

/-- Insertion into a sorted list keeps it sorted, for a relation that is total
and transitive on the elements at hand. -/
theorem pairwise_orderedInsert_on {α : Type} (r : α → α → Prop) [DecidableRel r]
    (S : α → Prop)
    (htot : ∀ x y, S x → S y → r x y ∨ r y x)
    (htr : ∀ x y z, S x → S y → S z → r x y → r y z → r x z)
    (a : α) (ha : S a) :
    ∀ l : List α, (∀ x ∈ l, S x) → l.Pairwise r → (List.orderedInsert r a l).Pairwise r := by
  intro l
  induction l with
  | nil => intro _ _; simp
  | cons b l ih =>
    intro hS hp
    have hb : S b := hS b (by simp)
    have hl : ∀ x ∈ l, S x := fun x hx => hS x (by simp [hx])
    rw [List.pairwise_cons] at hp
    simp only [List.orderedInsert]
    split_ifs with hab
    · rw [List.pairwise_cons]
      refine ⟨?_, List.pairwise_cons.mpr hp⟩
      intro y hy
      rcases List.mem_cons.mp hy with rfl | hy
      · exact hab
      · exact htr a b y ha hb (hl y hy) hab (hp.1 y hy)
    · rw [List.pairwise_cons]
      refine ⟨?_, ih hl hp.2⟩
      intro y hy
      rcases (List.mem_orderedInsert r).mp hy with rfl | hy
      · rcases htot y b ha hb with h | h
        · exact absurd h hab
        · exact h
      · exact hp.1 y hy

theorem pairwise_insertionSort_on {α : Type} (r : α → α → Prop) [DecidableRel r]
    (S : α → Prop)
    (htot : ∀ x y, S x → S y → r x y ∨ r y x)
    (htr : ∀ x y z, S x → S y → S z → r x y → r y z → r x z) :
    ∀ l : List α, (∀ x ∈ l, S x) → (List.insertionSort r l).Pairwise r := by
  intro l
  induction l with
  | nil => intro _; simp
  | cons a l ih =>
    intro hS
    simp only [List.insertionSort]
    exact pairwise_orderedInsert_on r S htot htr a (hS a (by simp)) _
      (fun x hx => hS x (by simp [(List.mem_insertionSort r).mp hx]))
      (ih (fun x hx => hS x (by simp [hx])))

/-- The insertion sort meets the contract of `qsort`. -/
theorem insertionQsort_contract {α : Type} :
    QsortContract (insertionQsort : List α → Nat → (α → α → Option Int) → Option (List α)) := by
  intro base nmemb compar hn hc
  obtain ⟨f, hval, hanti, htrans⟩ := hc
  subst hn
  have hle : ∀ x ∈ base, ∀ y ∈ base, (comparLe compar x y ↔ f x y ≤ 0) := by
    intro x hx y hy
    rw [comparLe_iff, hval x hx y hy]
    simp
  refine ⟨List.insertionSort (comparLe compar) base, by simp [insertionQsort],
    List.perm_insertionSort _ _, ?_⟩
  have hp := pairwise_insertionSort_on (comparLe compar) (fun x => x ∈ base)
    (fun x y hx hy => by
      rw [hle x hx y hy, hle y hy x hx]
      have := hanti x hx y hy
      by_cases h : f x y ≤ 0
      · exact Or.inl h
      · right
        have h2 : 0 < f x y := by omega
        have := (hanti y hy x hx).1.mpr h2
        omega)
    (fun x y z hx hy hz hxy hyz => by
      rw [hle x hx z hz]
      exact htrans x hx y hy z hz ((hle x hx y hy).mp hxy) ((hle y hy z hz).mp hyz))
    base (fun x hx => hx)
  exact hp.imp (fun h => (comparLe_iff compar _ _).mp h)

/-- The comparison function `myStringSort` gives to `qsort` is consistent on
an array of handles of strings with present buffers of `_length` chars, fewer
than `2 ^ 32` each. -/
theorem myStringComparatorCasting_consistent (E : Int) (arr : List (Option MyString))
    (hwf : ∀ x ∈ arr, ∃ s : MyString,
      x = some s ∧ s._string ≠ none ∧ WellFormed s ∧ s._length < 4294967296) :
    ComparatorConsistent (myStringComparatorCasting E) arr := by
  refine ⟨fun x y => lexCmp (x.elim [] bytes) (y.elim [] bytes), ?_, ?_, ?_⟩
  · intro x hx y hy
    obtain ⟨a, rfl, ha1, ha2, ha3⟩ := hwf x hx
    obtain ⟨b, rfl, hb1, hb2, _⟩ := hwf y hy
    simp only [myStringComparatorCasting, Option.elim]
    exact myStringCompare_eq_lexCmp E a b ⟨ha1, ha2⟩ ⟨hb1, hb2⟩
      (lt_of_le_of_lt (Nat.min_le_left _ _) ha3)
  · intro x _ y _
    have := lexCmp_swap (x.elim [] bytes) (y.elim [] bytes)
    simp only
    constructor <;> constructor <;> intro h <;> omega
  · intro x _ y _ z _ h1 h2
    exact lexCmp_trans _ _ _ h1 h2

/-- Sorting with a `qsort` that meets its contract: `myStringSort` on a
non-empty array of handles of well-formed strings with present buffers, of
fewer than `2 ^ 32` chars each, leaves a permutation in ascending order. -/
theorem myStringSort_result
    (qsort : List (Option MyString) → Nat →
      (Option MyString → Option MyString → Option Int) → Option (List (Option MyString)))
    (hq : QsortContract qsort) (E : Int) (arr : List (Option MyString))
    (hne : arr ≠ [])
    (hwf : ∀ x ∈ arr, ∃ s : MyString,
      x = some s ∧ s._string ≠ none ∧ WellFormed s ∧ s._length < 4294967296) :
    ∃ sorted, myStringSort qsort E (some arr) arr.length = some (some sorted)
      ∧ sorted.Perm arr
      ∧ sorted.Pairwise (fun x y => ∃ r, myStringCompare E x y = some r ∧ r ≤ 0) := by
  obtain ⟨sorted, hs, hperm, hpw⟩ := hq arr arr.length (myStringComparatorCasting E) rfl
    (myStringComparatorCasting_consistent E arr hwf)
  have hpos : arr.length > 0 := List.length_pos.mpr hne
  refine ⟨sorted, ?_, hperm, hpw⟩
  simp only [myStringSort, myStringCustomSort, hpos, if_true, hs]

/-- C12: for every non-empty array of string handles with present buffers (of
`_length` chars each, fewer than `2 ^ 32` so that the `unsigned int` index of
the comparison reaches the end of the shorter string), and a `qsort` that
meets its contract, after `myStringSort` the array is a permutation of the
original handles and is in ascending order:
`myStringCompare (arr[i], arr[j]) <= 0` for all `i < j`. -/
theorem myStringSort_sorted_perm
    (qsort : List (Option MyString) → Nat →
      (Option MyString → Option MyString → Option Int) → Option (List (Option MyString)))
    (hq : QsortContract qsort) (E : Int) (arr : List (Option MyString))
    (hne : arr ≠ [])
    (hwf : ∀ x ∈ arr, ∃ s : MyString,
      x = some s ∧ s._string ≠ none ∧ WellFormed s ∧ s._length < 4294967296) :
    ∃ sorted, myStringSort qsort E (some arr) arr.length = some (some sorted)
      ∧ sorted.Perm arr
      ∧ sorted.Pairwise (fun x y => ∃ r, myStringCompare E x y = some r ∧ r ≤ 0) :=
  myStringSort_result qsort hq E arr hne hwf

/-- Witness of C12: the array `{"abb", "aab", "bbb", "aaa"}` of the test,
sorted with the insertion sort as `qsort`, becomes
`["aaa", "aab", "abb", "bbb"]`. -/
theorem myStringSort_sorted_perm_witness :
    (∃ sorted,
      myStringSort insertionQsort (-999)
          (some [some (mk [97, 98, 98]), some (mk [97, 97, 98]), some (mk [98, 98, 98]),
            some (mk [97, 97, 97])])
          [some (mk [97, 98, 98]), some (mk [97, 97, 98]), some (mk [98, 98, 98]),
            some (mk [97, 97, 97])].length
        = some (some sorted)
      ∧ sorted.Perm [some (mk [97, 98, 98]), some (mk [97, 97, 98]), some (mk [98, 98, 98]),
            some (mk [97, 97, 97])]
      ∧ sorted.Pairwise (fun x y => ∃ r, myStringCompare (-999) x y = some r ∧ r ≤ 0))
    ∧ myStringSort insertionQsort (-999)
          (some [some (mk [97, 98, 98]), some (mk [97, 97, 98]), some (mk [98, 98, 98]),
            some (mk [97, 97, 97])]) 4
        = some (some [some (mk [97, 97, 97]), some (mk [97, 97, 98]), some (mk [97, 98, 98]),
            some (mk [98, 98, 98])]) :=
  ⟨myStringSort_sorted_perm insertionQsort insertionQsort_contract (-999)
    [some (mk [97, 98, 98]), some (mk [97, 97, 98]), some (mk [98, 98, 98]),
      some (mk [97, 97, 97])]
    (by simp)
    (by
      intro x hx
      simp only [List.mem_cons, List.mem_singleton, List.not_mem_nil, or_false] at hx
      rcases hx with rfl | rfl | rfl | rfl <;>
        exact ⟨_, rfl, by simp [mk], rfl, by decide⟩),
   by decide⟩

/-! ## The sorted order of the contents is unique -/

theorem lexCmp_eq_zero : ∀ (a b : List Int), lexCmp a b = 0 → a = b
  | [], [] => by simp
  | [], _ :: _ => by simp [lexCmp]
  | _ :: _, [] => by simp [lexCmp]
  | x :: xs, y :: ys => by
    simp only [lexCmp]
    intro h
    by_cases h1 : x > y
    · rw [if_pos h1] at h
      exact absurd h (by decide)
    · by_cases h2 : x < y
      · rw [if_neg h1, if_pos h2] at h
        exact absurd h (by decide)
      · rw [if_neg h1, if_neg h2] at h
        have hxy : x = y := by omega
        rw [hxy, lexCmp_eq_zero xs ys h]

theorem myStringCompare_content (E : Int) (arr : List (Option MyString))
    (hwf : ∀ x ∈ arr, ∃ s : MyString,
      x = some s ∧ s._string ≠ none ∧ WellFormed s ∧ s._length < 4294967296)
    (x y : Option MyString) (hx : x ∈ arr) (hy : y ∈ arr) :
    myStringCompare E x y = some (lexCmp (content x) (content y)) := by
  obtain ⟨a, rfl, ha1, ha2, ha3⟩ := hwf x hx
  obtain ⟨b, rfl, hb1, hb2, _⟩ := hwf y hy
  exact myStringCompare_eq_lexCmp E a b ⟨ha1, ha2⟩ ⟨hb1, hb2⟩
    (lt_of_le_of_lt (Nat.min_le_left _ _) ha3)

/-- Two arrangements of the same handles that are both in ascending order
show the same sequence of contents. -/
theorem sorted_contents_unique (E : Int) (arr l1 l2 : List (Option MyString))
    (hwf : ∀ x ∈ arr, ∃ s : MyString,
      x = some s ∧ s._string ≠ none ∧ WellFormed s ∧ s._length < 4294967296)
    (h1 : l1.Perm arr) (h2 : l2.Perm arr)
    (p1 : l1.Pairwise (fun x y => ∃ r, myStringCompare E x y = some r ∧ r ≤ 0))
    (p2 : l2.Pairwise (fun x y => ∃ r, myStringCompare E x y = some r ∧ r ≤ 0)) :
    l1.map content = l2.map content := by
  haveI : IsAntisymm (List Int) (fun a b => lexCmp a b ≤ 0) :=
    ⟨fun a b hab hba => lexCmp_eq_zero a b (by have := lexCmp_swap a b; omega)⟩
  have key : ∀ l : List (Option MyString), l.Perm arr →
      l.Pairwise (fun x y => ∃ r, myStringCompare E x y = some r ∧ r ≤ 0) →
      (l.map content).Sorted (fun a b => lexCmp a b ≤ 0) := by
    intro l hl pl
    rw [List.Sorted, List.pairwise_map]
    refine pl.imp_of_mem ?_
    intro x y hx hy hxy
    obtain ⟨r, hr, hle⟩ := hxy
    rw [myStringCompare_content E arr hwf x y (hl.subset hx) (hl.subset hy)] at hr
    rw [Option.some.inj hr]
    exact hle
  exact List.eq_of_perm_of_sorted ((h1.trans h2.symm).map content) (key l1 h1 p1) (key l2 h2 p2)

/-- The array of the test sorted by `myStringSort`, with any `qsort` that
meets its contract, shows `"aaa"`, `"aab"`, `"abb"`, `"bbb"` in that order. -/
theorem myStringSort_testSortArray
    (qsort : List (Option MyString) → Nat →
      (Option MyString → Option MyString → Option Int) → Option (List (Option MyString)))
    (hq : QsortContract qsort) (E : Int) :
    ∃ sorted, myStringSort qsort E (some testSortArray) 4 = some (some sorted)
      ∧ sorted.map content = [[97, 97, 97], [97, 97, 98], [97, 98, 98], [98, 98, 98]] := by
  have hwf : ∀ x ∈ testSortArray,
      ∃ s : MyString,
        x = some s ∧ s._string ≠ none ∧ WellFormed s ∧ s._length < 4294967296 := by
    intro x hx
    simp only [testSortArray, List.mem_cons, List.mem_singleton, List.not_mem_nil,
      or_false] at hx
    rcases hx with rfl | rfl | rfl | rfl <;> exact ⟨_, rfl, by simp [mk], rfl, by decide⟩
  obtain ⟨sorted, hs, hperm, hpw⟩ :=
    myStringSort_result qsort hq E testSortArray (by simp [testSortArray]) hwf
  have hpe : [some (mk [97, 97, 97]), some (mk [97, 97, 98]), some (mk [97, 98, 98]),
      some (mk [98, 98, 98])].Perm testSortArray := by
    decide
  have hp0 : [some (mk [97, 97, 97]), some (mk [97, 97, 98]), some (mk [97, 98, 98]),
      some (mk [98, 98, 98])].Pairwise (fun x y => lexCmp (content x) (content y) ≤ 0) := by
    decide
  have hp1 := hp0.imp_of_mem (S := fun x y => ∃ r, myStringCompare E x y = some r ∧ r ≤ 0)
    (fun {x y} hx hy h =>
      ⟨_, myStringCompare_content E testSortArray hwf x y (hpe.subset hx) (hpe.subset hy), h⟩)
  refine ⟨sorted, hs, ?_⟩
  rw [sorted_contents_unique E testSortArray sorted _ hwf hperm hpe hpw hp1]
  rfl

/-! ## The sentinel among the values of `myStringToInt` -/

theorem digits_length_le_div (m : Nat) (hm : m ≠ 0) :
    (Nat.digits 10 m).length ≤ m / 10 + 1 := by
  rw [digits_length_step m hm]
  have := digits_length_le (m / 10)
  omega

/-- Every `int` is the value of a well-formed numeral that `myStringToInt`
parses to it. -/
theorem exists_numeral (E n : Int) (h1 : INT_MIN ≤ n) (h2 : n ≤ INT_MAX) :
    ∃ sign ds : List Int,
      (sign = [] ∨ sign = [43] ∨ sign = [45]) ∧ ds ≠ [] ∧ (∀ c ∈ ds, 48 ≤ c ∧ c ≤ 57)
      ∧ (if sign = [45] then - decimalValue ds else decimalValue ds) = n
      ∧ myStringToInt E (some (mk (sign ++ ds))) = some n := by
  have hval := decimalValue_digitChars n.natAbs
  have hdl := digitChars_length n.natAbs
  unfold INT_MIN at h1
  unfold INT_MAX at h2
  rcases lt_trichotomy n 0 with hn | hn | hn
  · have hne : n.natAbs ≠ 0 := by omega
    have hlen := digits_length_le_div n.natAbs hne
    have hv : (if ([45] : List Int) = [45] then - decimalValue (digitChars n.natAbs)
        else decimalValue (digitChars n.natAbs)) = n := by
      simp only [if_true, hval]; omega
    refine ⟨[45], digitChars n.natAbs, by simp, digitChars_ne_nil _ hne,
      digitChars_isDigit _, hv, ?_⟩
    have := myStringToInt_numeral E (mk ([45] ++ digitChars n.natAbs)) [45]
      (digitChars n.natAbs) (by simp) (digitChars_ne_nil _ hne) (digitChars_isDigit _)
      rfl rfl (by simp [mk]; omega)
      (by rw [hv]; unfold INT_MIN; omega) (by rw [hv]; unfold INT_MAX; omega)
    rw [this, hv]
  · subst hn
    refine ⟨[], [48], by simp, by simp, by simp, by decide, ?_⟩
    simp [myStringToInt, mk, wrapInt, myStringToIntLoop, readAt, ZERO_ASCII, NINE_ASCII,
      TO_INT_ASCII]
  · have hne : n.natAbs ≠ 0 := by omega
    have hlen := digits_length_le_div n.natAbs hne
    have hv : (if ([] : List Int) = [45] then - decimalValue (digitChars n.natAbs)
        else decimalValue (digitChars n.natAbs)) = n := by
      have hx : ([] : List Int) ≠ [45] := by simp
      simp only [hx, if_false, hval]; omega
    refine ⟨[], digitChars n.natAbs, by simp, digitChars_ne_nil _ hne,
      digitChars_isDigit _, hv, ?_⟩
    have := myStringToInt_numeral E (mk ([] ++ digitChars n.natAbs)) []
      (digitChars n.natAbs) (by simp) (digitChars_ne_nil _ hne) (digitChars_isDigit _)
      rfl rfl (by simp [mk]; omega)
      (by rw [hv]; unfold INT_MIN; omega) (by rw [hv]; unfold INT_MAX; omega)
    rw [this, hv]

/-- C21, as the code behaves: on a well-formed signed decimal numeral within
`int` range (of at most `2 ^ 31` chars) `myStringToInt` returns its value, and
the result is `MYSTR_ERROR_CODE` exactly when that value is `MYSTR_ERROR_CODE`
itself. -/
theorem myStringToInt_sentinel_iff (E : Int) (s : MyString) (sign ds : List Int)
    (hsign : sign = [] ∨ sign = [PLUS_ASCII] ∨ sign = [MINUS_ASCII])
    (hne : ds ≠ [])
    (hds : ∀ c ∈ ds, ZERO_ASCII ≤ c ∧ c ≤ NINE_ASCII)
    (hbuf : s._string = some (sign ++ ds))
    (hlen : s._length = (sign ++ ds).length)
    (hsize : s._length ≤ 2147483648)
    (hmin : INT_MIN ≤ (if sign = [MINUS_ASCII] then - decimalValue ds else decimalValue ds))
    (hmax : (if sign = [MINUS_ASCII] then - decimalValue ds else decimalValue ds) ≤ INT_MAX) :
    myStringToInt E (some s)
        = some (if sign = [MINUS_ASCII] then - decimalValue ds else decimalValue ds)
    ∧ (myStringToInt E (some s) = some E
        ↔ (if sign = [MINUS_ASCII] then - decimalValue ds else decimalValue ds) = E) := by
  have h := myStringToInt_numeral E s sign ds hsign hne hds hbuf hlen hsize hmin hmax
  refine ⟨h, ?_⟩
  rw [h]
  exact ⟨fun e => Option.some.inj e, fun e => congrArg some e⟩

/-- Witness of C21 as amended: `"-999"` parses to `-999`, which is the
sentinel when the sentinel is `-999` and is not when it is `-1000`. -/
theorem myStringToInt_sentinel_iff_witness :
    myStringToInt (-999) (some (mk ([45] ++ [57, 57, 57]))) = some (-999)
    ∧ ¬ myStringToInt (-1000) (some (mk ([45] ++ [57, 57, 57]))) = some (-1000) :=
  ⟨((myStringToInt_sentinel_iff (-999) (mk ([45] ++ [57, 57, 57])) [45] [57, 57, 57]
      (by decide) (by decide) (by decide) rfl rfl (by decide) (by decide) (by decide)).1).trans
      (by decide),
   fun h => absurd
    ((myStringToInt_sentinel_iff (-1000) (mk ([45] ++ [57, 57, 57])) [45] [57, 57, 57]
      (by decide) (by decide) (by decide) rfl rfl (by decide) (by decide) (by decide)).2.mp h)
    (by decide)⟩

/-- C21 fails as stated: whatever `int` the sentinel is, some well-formed
signed decimal numeral within `int` range is parsed to the sentinel. -/
theorem myStringToInt_sentinel_collides :
    ¬ ∃ E : Int, INT_MIN ≤ E ∧ E ≤ INT_MAX ∧
      ∀ sign ds : List Int,
        (sign = [] ∨ sign = [43] ∨ sign = [45]) → ds ≠ [] → (∀ c ∈ ds, 48 ≤ c ∧ c ≤ 57) →
        INT_MIN ≤ (if sign = [45] then - decimalValue ds else decimalValue ds) →
        (if sign = [45] then - decimalValue ds else decimalValue ds) ≤ INT_MAX →
        myStringToInt E (some (mk (sign ++ ds))) ≠ some E := by
  rintro ⟨E, h1, h2, h⟩
  obtain ⟨sign, ds, hs, hne, hd, hv, hp⟩ := exists_numeral E E h1 h2
  exact h sign ds hs hne hd (by rw [hv]; exact h1) (by rw [hv]; exact h2) hp

/-! ## Length and memory usage -/

/-- C22: `myStringLen` returns the stored length of a present string and `0`
for an absent one, and `myStringMemUsage` returns `0` for an absent string;
both return a plain number, with no error value. -/
theorem len_memUsage_absent (s : MyString) (sizeofPointer : Nat) :
    myStringLen (some s) = s._length
    ∧ myStringLen none = 0
    ∧ myStringMemUsage sizeofPointer none = 0 :=
  ⟨rfl, rfl, rfl⟩

/-- C28, evaluated: for a present string `myStringMemUsage` returns the size of
the pointer `str1` plus the length, which is less than the size of the
`MyString` object plus the length, since the struct holds a pointer and a
`size_t`; with the sizes of an LP64 machine (pointer 8, struct 16), `"abc"`
gives 11 and not 19. -/
theorem myStringMemUsage_pointer_size :
    (∀ (sizeofPointer sizeofMyString : Nat) (s : MyString),
        sizeofPointer < sizeofMyString →
        myStringMemUsage sizeofPointer (some s) = sizeofPointer + s._length
        ∧ myStringMemUsage sizeofPointer (some s) ≠ sizeofMyString + s._length)
    ∧ myStringMemUsage 8 (some (mk [97, 98, 99])) = 11
    ∧ myStringMemUsage 8 (some (mk [97, 98, 99])) ≠ 16 + 3 := by
  refine ⟨?_, by decide, by decide⟩
  intro p q s hpq
  have e : myStringMemUsage p (some s) = p + s._length := by
    simp only [myStringMemUsage, Nat.mul_one]
  exact ⟨e, by rw [e]; omega⟩

/-! ## Absent arguments -/

/-- C23: `myStringSetFromMyString`, `myStringSetFromCString`,
`myStringSetFromInt`, `myStringCat` and `myStringCatTo` return `MYSTRING_ERROR`
when one of their required arguments is absent and leave the object they would
write as it was; `myStringClone` and `myStringToCString` return `NULL` for an
absent string. This holds for every outcome of the allocations. -/
theorem absent_arguments (m m2 : Bool) (s : MyString) (x y : Option MyString)
    (cString : Option (List Int)) (n : Int) :
    myStringSetFromMyString m none y = some (MYSTRING_ERROR, none)
    ∧ myStringSetFromMyString m (some s) none = some (MYSTRING_ERROR, some s)
    ∧ myStringSetFromCString m none cString = some (MYSTRING_ERROR, none)
    ∧ myStringSetFromCString m (some s) none = some (MYSTRING_ERROR, some s)
    ∧ myStringSetFromInt m none n = some (MYSTRING_ERROR, none)
    ∧ myStringCat m m2 none y = some (MYSTRING_ERROR, none)
    ∧ myStringCat m m2 (some s) none = some (MYSTRING_ERROR, some s)
    ∧ myStringCatTo m none x y = some (MYSTRING_ERROR, y)
    ∧ myStringCatTo m x none y = some (MYSTRING_ERROR, y)
    ∧ myStringCatTo m x y none = some (MYSTRING_ERROR, none)
    ∧ myStringClone m m2 none = some none
    ∧ myStringToCString m none = some none := by
  refine ⟨rfl, rfl, rfl, rfl, rfl, rfl, rfl, rfl, ?_, ?_, rfl, rfl⟩
  · cases x <;> rfl
  · cases x <;> cases y <;> rfl

/-- C24, evaluated: `myStringCustomCompare` reads `str1->_string` and
`str2->_string` before it compares `str1` and `str2` with `NULL`. With an
absent first operand the call is undefined, and so it is with an absent second
operand when the first has a buffer; the sentinel is returned for an absent
second operand only when the buffer of the first is absent. -/
theorem myStringCustomCompare_absent_operand (E : Int) (a : MyString) (b1 : List Int)
    (len : Nat) (y : Option MyString) (cmp : Option (Int → Int → Int)) :
    myStringCustomCompare E none y cmp = none
    ∧ myStringCustomCompare E (some { _string := some b1, _length := len }) none cmp = none
    ∧ myStringCustomCompare E (some { _string := none, _length := len }) none cmp = some E
    ∧ myStringCustomEqual E none (some a) cmp = some E
    ∧ myStringCustomEqual E (some a) none cmp = some E :=
  ⟨rfl, rfl, rfl, rfl, rfl⟩

/-! ## The default comparator -/

/-- The default comparator orders chars by their value as `char`. -/
theorem defaultComparator_spec (c1 c2 : Int) :
    (c1 > c2 → defaultComparator c1 c2 = 1)
    ∧ (c1 < c2 → defaultComparator c1 c2 = -1)
    ∧ (c1 = c2 → defaultComparator c1 c2 = 0) := by
  unfold defaultComparator
  refine ⟨fun h => ?_, fun h => ?_, fun h => ?_⟩
  · rw [if_pos h]
  · rw [if_neg (by omega), if_pos h]
  · rw [if_neg (by omega), if_neg (by omega)]

/-- C27, as the code behaves: the default comparator returns `1`, `-1` or `0`
as the value of `c1` as a `char` is greater than, smaller than or equal to that
of `c2`. This is the order of the raw bytes for the chars from `0` to `127`
whether `char` is signed or not, and for all bytes where `char` is unsigned. -/
theorem defaultComparator_char_order (c1 c2 : Int) (charIsSigned : Bool) (b1 b2 : Nat)
    (h : charIsSigned = false ∨ (b1 < 128 ∧ b2 < 128)) :
    ((c1 > c2 → defaultComparator c1 c2 = 1)
      ∧ (c1 < c2 → defaultComparator c1 c2 = -1)
      ∧ (c1 = c2 → defaultComparator c1 c2 = 0))
    ∧ ((b1 > b2 →
          defaultComparator (charOfByte charIsSigned b1) (charOfByte charIsSigned b2) = 1)
      ∧ (b1 < b2 →
          defaultComparator (charOfByte charIsSigned b1) (charOfByte charIsSigned b2) = -1)
      ∧ (b1 = b2 →
          defaultComparator (charOfByte charIsSigned b1) (charOfByte charIsSigned b2) = 0)) := by
  refine ⟨defaultComparator_spec c1 c2, ?_⟩
  have e1 : charOfByte charIsSigned b1 = (b1 : Int) := by
    unfold charOfByte
    rcases h with h | h
    · simp [h]
    · rw [if_neg (by omega)]
  have e2 : charOfByte charIsSigned b2 = (b2 : Int) := by
    unfold charOfByte
    rcases h with h | h
    · simp [h]
    · rw [if_neg (by omega)]
  rw [e1, e2]
  have := defaultComparator_spec (b1 : Int) (b2 : Int)
  exact ⟨fun hb => this.1 (by omega), fun hb => this.2.1 (by omega),
    fun hb => this.2.2 (by omega)⟩

/-- Witness of C27 as amended: `'b'` against `'a'`, with a signed `char`. -/
theorem defaultComparator_char_order_witness :
    defaultComparator (charOfByte true 98) (charOfByte true 97) = 1 :=
  (defaultComparator_char_order 98 97 true 98 97 (Or.inr (by decide))).2.1 (by decide)

/-- C27 fails as stated where `char` is signed: the byte `128` is greater than
the byte `1`, and the comparator returns `-1` on them. -/
theorem defaultComparator_signed_bytes :
    128 < 256 ∧ 1 < 256 ∧ 128 > 1
    ∧ defaultComparator (charOfByte true 128) (charOfByte true 1) = -1
    ∧ ¬ ∀ (charIsSigned : Bool) (b1 b2 : Nat), b1 < 256 → b2 < 256 → b1 > b2 →
        defaultComparator (charOfByte charIsSigned b1) (charOfByte charIsSigned b2) = 1 := by
  refine ⟨by decide, by decide, by decide, by decide, ?_⟩
  intro h
  have := h true 128 1 (by decide) (by decide) (by decide)
  revert this
  decide

/-! ## Decimal digits written by `myStringSetFromInt` -/

theorem digitChars_head (m : Nat) (hm : m ≠ 0) : (digitChars m).head? ≠ some 48 := by
  have hnil : Nat.digits 10 m ≠ [] := Nat.digits_ne_nil_iff_ne_zero.mpr hm
  have hlast := Nat.getLast_digit_ne_zero 10 hm
  unfold digitChars
  rw [List.head?_map, List.head?_reverse, List.getLast?_eq_getLast _ hnil]
  simp only [Option.map_some', ne_eq, Option.some.injEq]
  omega

/-- For an `int` other than `0` and `INT_MIN`, `myStringSetFromInt` with its
allocation succeeding leaves `'-'` when `n < 0`, then the decimal digits of
`|n|`. -/
theorem myStringSetFromInt_result (s : MyString) (n : Int) (h0 : n ≠ 0) (h1 : INT_MIN < n) :
    myStringSetFromInt true (some s) n
      = some (MYSTRING_SUCCESS,
          some { _string := some ((if n < 0 then [45] else []) ++ digitChars n.natAbs),
                 _length := (Nat.digits 10 n.natAbs).length + (if n < 0 then 1 else 0) }) := by
  by_cases hn : n < 0
  · rw [myStringSetFromInt_neg s n hn h1, if_pos hn, if_pos hn]
    simp [mk, digitChars_length]
  · rw [myStringSetFromInt_pos s n (by omega), if_neg hn, if_neg hn]
    simp [mk, digitChars_length]

/-- C25: for every `int` `n` with `n != 0` and `n > INT_MIN`,
`myStringSetFromInt (str, n)` succeeds (its allocation succeeding) and leaves
`str` holding the decimal digits of `|n|`, most significant first and without
a leading zero, preceded by `'-'` exactly when `n < 0`, with length the number
of decimal digits of `|n|` plus `1` when `n < 0`. -/
theorem myStringSetFromInt_decimal (s : MyString) (n : Int)
    (h0 : n ≠ 0) (h1 : INT_MIN < n) (h2 : n ≤ INT_MAX) :
    myStringSetFromInt true (some s) n
        = some (MYSTRING_SUCCESS,
            some { _string := some ((if n < 0 then [MINUS_ASCII] else []) ++ digitChars n.natAbs),
                   _length := (Nat.digits 10 n.natAbs).length + (if n < 0 then 1 else 0) })
    ∧ (∀ c ∈ digitChars n.natAbs, ZERO_ASCII ≤ c ∧ c ≤ NINE_ASCII)
    ∧ decimalValue (digitChars n.natAbs) = |n|
    ∧ (digitChars n.natAbs).head? ≠ some ZERO_ASCII
    ∧ (digitChars n.natAbs).length = (Nat.digits 10 n.natAbs).length := by
  have _ := h2
  refine ⟨myStringSetFromInt_result s n h0 h1, digitChars_isDigit _, ?_,
    digitChars_head _ (by omega), digitChars_length _⟩
  rw [decimalValue_digitChars, Int.natCast_natAbs]

/-- Witness of C25: `765` gives `"765"` and `-1385` gives `"-1385"`. -/
theorem myStringSetFromInt_decimal_witness :
    myStringSetFromInt true (some ⟨none, 0⟩) 765
        = some (MYSTRING_SUCCESS, some { _string := some [55, 54, 53], _length := 3 })
    ∧ myStringSetFromInt true (some ⟨none, 0⟩) (-1385)
        = some (MYSTRING_SUCCESS, some { _string := some [45, 49, 51, 56, 53], _length := 5 }) :=
  ⟨((myStringSetFromInt_decimal ⟨none, 0⟩ 765 (by decide) (by decide) (by decide)).1).trans
      (by simp [digitChars]),
   ((myStringSetFromInt_decimal ⟨none, 0⟩ (-1385) (by decide) (by decide) (by decide)).1).trans
      (by simp [digitChars, MINUS_ASCII])⟩

/-! ## Equality and the default ordering -/

theorem lexCmp_self (a : List Int) : lexCmp a a = 0 := by
  have := lexCmp_swap a a
  omega

theorem lexCmp_eq_zero_iff (a b : List Int) : lexCmp a b = 0 ↔ a = b :=
  ⟨lexCmp_eq_zero a b, fun h => by rw [h]; exact lexCmp_self b⟩

theorem sameChars_iff (a b : MyString) (ha : WellFormed a) (hb : WellFormed b) :
    sameChars a b ↔ bytes a = bytes b := by
  unfold sameChars
  unfold WellFormed at ha hb
  constructor
  · rintro ⟨hl, hi⟩
    apply List.ext_get?
    intro i
    by_cases h : i < a._length
    · exact hi i h
    · rw [List.get?_eq_none.mpr (by omega), List.get?_eq_none.mpr (by omega)]
  · intro h
    refine ⟨by rw [ha, hb, h], fun i _ => by rw [h]⟩

/-- On two strings with present buffers of `_length` chars, the shorter of
fewer than `2 ^ 32`, and a sentinel that is no result of a comparison,
`myStringEqual` returns `1` when the lexicographic comparison is `0` and `0`
otherwise. -/
theorem myStringEqual_eq (E : Int) (hE0 : E ≠ 0) (hE1 : E ≠ 1) (hEm : E ≠ -1)
    (a b : MyString)
    (ha : a._string ≠ none ∧ WellFormed a) (hb : b._string ≠ none ∧ WellFormed b)
    (hsize : min a._length b._length < 4294967296) :
    myStringEqual E (some a) (some b)
      = some (if lexCmp (bytes a) (bytes b) = 0 then 1 else 0) := by
  have hc := myStringCompare_eq_lexCmp E a b ha hb hsize
  simp only [myStringCompare] at hc
  simp only [myStringEqual, myStringCustomEqual, hc]
  rcases lexCmp_range (bytes a) (bytes b) with h | h | h <;> rw [h]
  · simp [Ne.symm hE0]
  · simp [Ne.symm hE1]
  · simp [Ne.symm hEm]

/-- C26: for strings `a` and `b` with present buffers (of `_length` chars, the
shorter of fewer than `2 ^ 32` so that the `unsigned int` index of the
comparison reaches its end), and a sentinel that is none of `-1`, `0`, `1`,
`myStringEqual (a, b)` returns a value greater than zero (it is `1`) if and
only if `a` and `b` have the same length and the same char at every position,
and returns `0` otherwise. -/
theorem myStringEqual_iff_sameChars (E : Int) (hE0 : E ≠ 0) (hE1 : E ≠ 1) (hEm : E ≠ -1)
    (a b : MyString)
    (ha : a._string ≠ none ∧ WellFormed a) (hb : b._string ≠ none ∧ WellFormed b)
    (hsize : min a._length b._length < 4294967296) :
    ∃ v, myStringEqual E (some a) (some b) = some v
      ∧ (0 < v ↔ sameChars a b)
      ∧ (sameChars a b → v = 1)
      ∧ (¬ sameChars a b → v = 0) := by
  refine ⟨_, myStringEqual_eq E hE0 hE1 hEm a b ha hb hsize, ?_, ?_, ?_⟩
  · rw [sameChars_iff a b ha.2 hb.2, ← lexCmp_eq_zero_iff]
    split_ifs with h <;> simp [h]
  · rw [sameChars_iff a b ha.2 hb.2, ← lexCmp_eq_zero_iff]
    intro h
    rw [if_pos h]
  · rw [sameChars_iff a b ha.2 hb.2, ← lexCmp_eq_zero_iff]
    intro h
    rw [if_neg h]

/-- Witness of C26: `"abc"` against `"abc"` and against `"abd"`. -/
theorem myStringEqual_iff_sameChars_witness :
    (∃ v, myStringEqual (-999) (some (mk [97, 98, 99])) (some (mk [97, 98, 99])) = some v
      ∧ (0 < v ↔ sameChars (mk [97, 98, 99]) (mk [97, 98, 99]))
      ∧ (sameChars (mk [97, 98, 99]) (mk [97, 98, 99]) → v = 1)
      ∧ (¬ sameChars (mk [97, 98, 99]) (mk [97, 98, 99]) → v = 0))
    ∧ myStringEqual (-999) (some (mk [97, 98, 99])) (some (mk [97, 98, 99])) = some 1
    ∧ myStringEqual (-999) (some (mk [97, 98, 99])) (some (mk [97, 98, 100])) = some 0 :=
  ⟨myStringEqual_iff_sameChars (-999) (by decide) (by decide) (by decide)
      (mk [97, 98, 99]) (mk [97, 98, 99]) ⟨by simp [mk], rfl⟩ ⟨by simp [mk], rfl⟩
      (by decide),
   by decide, by decide⟩

/-- C29: for strings `a` and `b` with present buffers (of `_length` chars, the
shorter of fewer than `2 ^ 32` so that the `unsigned int` index of the
comparison reaches its end), `myStringCompare (a, b)` and
`myStringCompare (b, a)` return values in `{-1, 0, 1}` that are opposite. -/
theorem myStringCompare_antisymm (E : Int) (a b : MyString)
    (ha : a._string ≠ none ∧ WellFormed a) (hb : b._string ≠ none ∧ WellFormed b)
    (hsize : min a._length b._length < 4294967296) :
    ∃ r1 r2 : Int,
      myStringCompare E (some a) (some b) = some r1
      ∧ myStringCompare E (some b) (some a) = some r2
      ∧ r1 = -r2
      ∧ (r1 = -1 ∨ r1 = 0 ∨ r1 = 1)
      ∧ (r2 = -1 ∨ r2 = 0 ∨ r2 = 1) := by
  refine ⟨_, _, myStringCompare_eq_lexCmp E a b ha hb hsize,
    myStringCompare_eq_lexCmp E b a hb ha (by rw [Nat.min_comm]; exact hsize), ?_, ?_, ?_⟩
  · have := lexCmp_swap (bytes a) (bytes b)
    omega
  · rcases lexCmp_range (bytes a) (bytes b) with h | h | h <;> omega
  · rcases lexCmp_range (bytes b) (bytes a) with h | h | h <;> omega

/-- Witness of C29: `"abc"` and `"abd"`. -/
theorem myStringCompare_antisymm_witness :
    (∃ r1 r2 : Int,
      myStringCompare (-999) (some (mk [97, 98, 99])) (some (mk [97, 98, 100])) = some r1
      ∧ myStringCompare (-999) (some (mk [97, 98, 100])) (some (mk [97, 98, 99])) = some r2
      ∧ r1 = -r2
      ∧ (r1 = -1 ∨ r1 = 0 ∨ r1 = 1)
      ∧ (r2 = -1 ∨ r2 = 0 ∨ r2 = 1))
    ∧ myStringCompare (-999) (some (mk [97, 98, 99])) (some (mk [97, 98, 100])) = some (-1)
    ∧ myStringCompare (-999) (some (mk [97, 98, 100])) (some (mk [97, 98, 99])) = some 1 :=
  ⟨myStringCompare_antisymm (-999) (mk [97, 98, 99]) (mk [97, 98, 100])
      ⟨by simp [mk], rfl⟩ ⟨by simp [mk], rfl⟩ (by decide),
   by decide, by decide⟩

/-- C30: for strings `a`, `b`, `c` with present buffers (of `_length` chars,
those of `a` and `b` fewer than `2 ^ 32` so that the `unsigned int` index of
each comparison reaches the end of a string), the comparisons return values, `myStringCompare (a, b) <= 0` and
`myStringCompare (b, c) <= 0` give `myStringCompare (a, c) <= 0`, and one of
`myStringCompare (a, b) <= 0` and `myStringCompare (b, a) <= 0` holds: the
comparator `myStringSort` hands to the sort primitive, which is
`myStringCompare` on the two handles, is a total preorder on such strings. -/
theorem myStringCompare_total_preorder (E : Int) (a b c : MyString)
    (ha : a._string ≠ none ∧ WellFormed a) (hb : b._string ≠ none ∧ WellFormed b)
    (hc : c._string ≠ none ∧ WellFormed c)
    (hsa : a._length < 4294967296) (hsb : b._length < 4294967296) :
    ∃ rab rbc rac rba raa : Int,
      myStringCompare E (some a) (some b) = some rab
      ∧ myStringCompare E (some b) (some c) = some rbc
      ∧ myStringCompare E (some a) (some c) = some rac
      ∧ myStringCompare E (some b) (some a) = some rba
      ∧ myStringCompare E (some a) (some a) = some raa
      ∧ (rab ≤ 0 → rbc ≤ 0 → rac ≤ 0)
      ∧ (rab ≤ 0 ∨ rba ≤ 0)
      ∧ raa ≤ 0
      ∧ myStringComparatorCasting E (some a) (some b) = myStringCompare E (some a) (some b) := by
  refine ⟨_, _, _, _, _,
    myStringCompare_eq_lexCmp E a b ha hb (lt_of_le_of_lt (Nat.min_le_left _ _) hsa),
    myStringCompare_eq_lexCmp E b c hb hc (lt_of_le_of_lt (Nat.min_le_left _ _) hsb),
    myStringCompare_eq_lexCmp E a c ha hc (lt_of_le_of_lt (Nat.min_le_left _ _) hsa),
    myStringCompare_eq_lexCmp E b a hb ha (lt_of_le_of_lt (Nat.min_le_left _ _) hsb),
    myStringCompare_eq_lexCmp E a a ha ha (lt_of_le_of_lt (Nat.min_le_left _ _) hsa),
    lexCmp_trans _ _ _, ?_, ?_, rfl⟩
  · have := lexCmp_swap (bytes a) (bytes b)
    omega
  · rw [lexCmp_self]

/-- Witness of C30: `"aab"`, `"abb"` and `"bbb"`. -/
theorem myStringCompare_total_preorder_witness :
    (∃ rab rbc rac rba raa : Int,
      myStringCompare (-999) (some (mk [97, 97, 98])) (some (mk [97, 98, 98])) = some rab
      ∧ myStringCompare (-999) (some (mk [97, 98, 98])) (some (mk [98, 98, 98])) = some rbc
      ∧ myStringCompare (-999) (some (mk [97, 97, 98])) (some (mk [98, 98, 98])) = some rac
      ∧ myStringCompare (-999) (some (mk [97, 98, 98])) (some (mk [97, 97, 98])) = some rba
      ∧ myStringCompare (-999) (some (mk [97, 97, 98])) (some (mk [97, 97, 98])) = some raa
      ∧ (rab ≤ 0 → rbc ≤ 0 → rac ≤ 0)
      ∧ (rab ≤ 0 ∨ rba ≤ 0)
      ∧ raa ≤ 0
      ∧ myStringComparatorCasting (-999) (some (mk [97, 97, 98])) (some (mk [97, 98, 98]))
          = myStringCompare (-999) (some (mk [97, 97, 98])) (some (mk [97, 98, 98])))
    ∧ myStringCompare (-999) (some (mk [97, 97, 98])) (some (mk [98, 98, 98])) = some (-1) :=
  ⟨myStringCompare_total_preorder (-999) (mk [97, 97, 98]) (mk [97, 98, 98]) (mk [98, 98, 98])
      ⟨by simp [mk], rfl⟩ ⟨by simp [mk], rfl⟩ ⟨by simp [mk], rfl⟩
      (by decide) (by decide),
   by decide⟩

/-! ## A sign without digits -/

/-- C31: on a string that consists of the single char `+` or of the single
char `-`, `myStringToInt` returns `0`: the sign at index `0` is accepted, the
accumulator is still `0` (and `0 * -1` is `0`), and the loop ends. Unless the
sentinel is `0` itself, this is not the sentinel. -/
theorem myStringToInt_sign_only (E : Int) (s : MyString) (c : Int)
    (hc : c = PLUS_ASCII ∨ c = MINUS_ASCII)
    (hbuf : s._string = some [c]) (hlen : s._length = 1) :
    myStringToInt E (some s) = some 0
    ∧ (E ≠ 0 → myStringToInt E (some s) ≠ some E) := by
  have h : myStringToInt E (some s) = some 0 := by
    rcases hc with h | h <;> subst h <;>
      simp [myStringToInt, hbuf, hlen, wrapInt, myStringToIntLoop, readAt, ZERO_ASCII,
        NINE_ASCII, PLUS_ASCII, MINUS_ASCII]
  refine ⟨h, fun hE => ?_⟩
  rw [h]
  intro e
  exact hE (Option.some.inj e).symm

/-- Witness of C31: the strings `"+"` and `"-"`, with the sentinel `-999`. -/
theorem myStringToInt_sign_only_witness :
    (myStringToInt (-999) (some (mk [43])) = some 0
      ∧ myStringToInt (-999) (some (mk [43])) ≠ some (-999))
    ∧ (myStringToInt (-999) (some (mk [45])) = some 0
      ∧ myStringToInt (-999) (some (mk [45])) ≠ some (-999)) :=
  ⟨⟨(myStringToInt_sign_only (-999) (mk [43]) 43 (Or.inl rfl) rfl rfl).1,
    (myStringToInt_sign_only (-999) (mk [43]) 43 (Or.inl rfl) rfl rfl).2 (by decide)⟩,
   ⟨(myStringToInt_sign_only (-999) (mk [45]) 45 (Or.inr rfl) rfl rfl).1,
    (myStringToInt_sign_only (-999) (mk [45]) 45 (Or.inr rfl) rfl rfl).2 (by decide)⟩⟩

end MyStringC
